import Mathlib

/-!
# sndrcv-test: a Mercury RPC client and server

A shallow embedding of `sndrcv-client.cc` and `sndrcv-srvr.cc`.

* C `int` / `int32_t` values are integers; every arithmetic result that is stored in
  one is reduced with `wrap32`.
* `errx(eval, msg)` ends the whole process: a state records it in its `exit` field and
  takes no further step.
* The Mercury library is the environment.  Whatever it returns to the program (status
  codes, callback records, which completion it delivers next) is an input of the model.
* Each pthread is a step function; a schedule is a list of events, one per atomic step.
  `nsent` is only touched under `slock` and `lst.done` under `lst.lock`, so a step of
  one thread is atomic for the other.
-/

namespace SndRcv

/-! ## Machine integers and process exit -/

/-- Largest value of a C `int`. -/
def INT_MAX : Int := 2147483647

/-- Smallest value of a C `int`. -/
def INT_MIN : Int := -2147483648

/-- Reduction of an integer to the two's-complement range of a 32-bit `int`. -/
def wrap32 (x : Int) : Int := (x + 2147483648) % 4294967296 - 2147483648

/-- Membership in the range of a 32-bit `int`. -/
def isInt32 (x : Int) : Prop := INT_MIN ≤ x ∧ x ≤ INT_MAX

instance (x : Int) : Decidable (isInt32 x) := by unfold isInt32; infer_instance

/-- The constant `BASEPORT` of both programs. -/
def BASEPORT : Int := 19900

/-- The constant `DEF_COUNT` of both programs. -/
def DEF_COUNT : Int := 5

/-- The constant `TIMEOUT` of both programs (seconds). -/
def TIMEOUT : Int := 120

/-- How a process ended: the status handed to `exit` and the message written to
standard error. -/
structure ProcExit where
  status : Int
  msg : String
  deriving DecidableEq, Repr

/-- The libc call `errx(eval, msg)`: print `msg`, leave with status `eval`. -/
def errx (eval : Int) (msg : String) : ProcExit := ⟨eval, msg⟩

/-- The libc call `exit(status)`: leave with `status`, nothing goes to standard error. -/
def exit (status : Int) : ProcExit := ⟨status, ""⟩

/-- How `main` ends: `exit` is `none` when `main` blocks in `pthread_join` on an
instance that never finishes (the alarm then kills the process); `created` and `joined`
count the instance threads created and joined so far. -/
structure MainResult where
  exit : Option ProcExit
  created : Nat
  joined : Nat
  deriving DecidableEq, Repr

/-! ## The part of Mercury's interface the programs look at

Mercury (`mercury.h`) is a library the repository links against; its declarations are
not part of the repository.  The types below keep exactly what the two programs read. -/

/-- Mercury's `hg_return_t`.  The programs only compare a value with `HG_SUCCESS`;
every other value is a failure code. -/
inductive hg_return_t where
  | HG_SUCCESS
  | HG_FAIL (code : Nat)
  deriving DecidableEq, Repr

/-- Mercury's `hg_cb_type`, the kind of operation a callback record reports. -/
inductive hg_cb_type where
  | HG_CB_LOOKUP
  | HG_CB_FORWARD
  | HG_CB_RESPOND
  | HG_CB_BULK
  deriving DecidableEq, Repr

/-- Mercury's `struct hg_cb_info`, as far as the callbacks read it: the status `ret`,
the `type`, and (lookup only) the resolved address `info.lookup.addr`. -/
structure hg_cb_info where
  ret : hg_return_t
  type : hg_cb_type
  addr : Option Nat
  deriving DecidableEq, Repr

open hg_return_t hg_cb_type

/-! ## The shape of a network thread's record of calls -/

/-- A record of calls, `true` for `HG_Progress` and `false` for `HG_Trigger`, in which
every cycle drains first: the record does not start with a progress call and no progress
call follows another one directly. -/
def drain_first (l : List Bool) : Prop :=
  l.head? ≠ some true ∧ List.Chain' (fun a b => ¬ (a = true ∧ b = true)) l

/-! ## The libc routine `atoi`

`atoi(s)` is `(int) strtol(s, NULL, 10)`: `strtol` skips white space, reads an optional
sign and the run of decimal digits that follows, ignores the rest of the string, and
saturates at the range of `long` (64 bits); the conversion to `int` keeps the low 32
bits. -/

/-- Largest value of a C `long`. -/
def LONG_MAX : Int := 9223372036854775807

/-- Smallest value of a C `long`. -/
def LONG_MIN : Int := -9223372036854775808

/-- The value `strtol` returns for the number `x` it read: `x` itself, or the end of the
range of `long` that `x` lies beyond. -/
def saturate_long (x : Int) : Int :=
  if x > LONG_MAX then LONG_MAX else if x < LONG_MIN then LONG_MIN else x

/-- The libc predicate `isspace` in the "C" locale. -/
def isspace (c : Char) : Bool :=
  c.toNat = 32 || (9 ≤ c.toNat && c.toNat ≤ 13)

/-- The libc predicate `isdigit`. -/
def isdigit (c : Char) : Bool := 48 ≤ c.toNat && c.toNat ≤ 57

/-- The string without its leading white space. -/
def skip_space : List Char → List Char
  | [] => []
  | c :: cs => if isspace c then skip_space cs else c :: cs

/-- The value of the run of decimal digits at the start of a string; `acc` is the value
of the digits read so far. -/
def digits_value : Nat → List Char → Nat
  | acc, [] => acc
  | acc, c :: cs => if isdigit c then digits_value (acc * 10 + (c.toNat - 48)) cs else acc

/-- The libc routine `strtol(s, NULL, 10)`. -/
def strtol (s : List Char) : Int :=
  match skip_space s with
  | [] => 0
  | c :: cs =>
    if c.toNat = 45 then saturate_long (-(digits_value 0 cs : Int))
    else if c.toNat = 43 then saturate_long (digits_value 0 cs)
    else saturate_long (digits_value 0 (c :: cs))

/-- The libc routine `atoi`. -/
def atoi (s : List Char) : Int := wrap32 (strtol s)

/-- Whether a string starts with a decimal digit. -/
def starts_with_digit : List Char → Bool
  | [] => false
  | c :: _ => isdigit c

/-- Whether `atoi` finds a number: after the white space and an optional sign comes a
decimal digit. -/
def numeric (s : List Char) : Bool :=
  match skip_space s with
  | [] => false
  | c :: cs =>
    if c.toNat = 45 ∨ c.toNat = 43 then starts_with_digit cs else isdigit c

/-- The character of the decimal digit `d`. -/
def digit_char (d : Nat) : Char := Char.ofNat (48 + d)

/-- The number a list of decimal digits writes, most significant digit first. -/
def decimal (ds : List Nat) : Nat := ds.foldl (fun a d => a * 10 + d) 0

/-! ## Client (`sndrcv-client.cc`) -/

namespace Client

/-- The client's `struct g`: shared global data. -/
structure g where
  ninst : Int
  count : Int
  serialsend : Bool
  quiet : Bool
  deriving DecidableEq, Repr

/-- Where the controlling thread of `run_instance` stands. -/
inductive Pc where
  | lookup_wait
  | send_loop
  | serial_wait
  | final_wait
  | sent
  deriving DecidableEq, Repr

/-- State of one client instance: the fields of `struct is` and of `lookup_state` the
threads share, the controller's program point and loop variable, and three records kept
for the statements below (`inflight`, `launched`, `signalled`). -/
structure State where
  n : Int
  remoteaddr : Option Nat
  nsent : Int
  sends_done : Int
  lst_done : Int
  lookup_pending : Bool
  pc : Pc
  lcv : Int
  inflight : List Int
  launched : List Int
  signalled : List Int
  exit : Option ProcExit
  deriving DecidableEq, Repr

/-- The process ends here with `errx(eval, msg)`. -/
def State.errx (s : State) (eval : Int) (msg : String) : State :=
  { s with exit := some (SndRcv.errx eval msg) }

/-- What the libraries return to the start of `run_instance`. -/
structure InitEnv where
  hgclass_ok : Bool
  hgctx_ok : Bool
  pthread_create_rv : Int
  l_mutex_init_rv : Int
  l_cond_init_rv : Int
  lookup_launch_ret : hg_return_t
  deriving DecidableEq, Repr

/-- What the libraries return to one step of the controlling thread. -/
structure CtlEnv where
  mutex_init_rv : Int
  cond_init_rv : Int
  cond_wait_rv : Int
  create_ret : hg_return_t
  forward_ret : hg_return_t
  deriving DecidableEq, Repr

/-- One completed `HG_Forward`, as `forw_cb` sees it: the callback record, the handle
`info.forward.handle`, and what `HG_Get_output` and `HG_Destroy` return. -/
structure ForwardDone where
  cbi : hg_cb_info
  handle : Int
  get_output_ret : hg_return_t
  out_ret : Int
  destroy_ret : hg_return_t
  deriving DecidableEq, Repr

/-- The instance slot after `memset(is, 0, ...)` in `main`, with `is[lcv].n = lcv`. -/
def State.zero (n : Int) : State :=
  { n := n, remoteaddr := none, nsent := 0, sends_done := 0, lst_done := 0,
    lookup_pending := false, pc := Pc.lookup_wait, lcv := 0, inflight := [],
    launched := [], signalled := [], exit := none }

/-- First part of `run_instance`, up to and including the launch of `HG_Addr_lookup`
(source lines 186-226). -/
def run_instance_start (n : Int) (e : InitEnv) : State :=
  let s := State.zero n
  if e.hgclass_ok = false then s.errx 1 "HG_init failed"
  else if e.hgctx_ok = false then s.errx 1 "HG_Context_create failed"
  else if e.pthread_create_rv ≠ 0 then s.errx 1 "pthread create srvr failed"
  else if e.l_mutex_init_rv ≠ 0 then s.errx 1 "l mutex init"
  else if e.l_cond_init_rv ≠ 0 then s.errx 1 "cond init?"
  else if e.lookup_launch_ret ≠ HG_SUCCESS then s.errx 1 "HG addr lookup launch failed"
  else { s with sends_done := 0, lst_done := 0, lookup_pending := true }

/-- The callback `lookup_cb`, run when `HG_Addr_lookup` completes. -/
def lookup_cb (s : State) (cbi : hg_cb_info) : State :=
  if cbi.ret ≠ HG_SUCCESS then { s with lst_done := -1 }
  else { s with remoteaddr := cbi.addr, lst_done := 1 }

/-- The callback `forw_cb`, run when an `HG_Forward` completes. -/
def forw_cb (cfg : g) (s : State) (c : ForwardDone) : State :=
  if c.cbi.ret ≠ HG_SUCCESS then s.errx 1 "forw_cb failed"
  else if c.cbi.type ≠ HG_CB_FORWARD then s.errx 1 "forw_cb wrong type"
  else if c.get_output_ret ≠ HG_SUCCESS then s.errx 1 "get output failed"
  else if c.destroy_ret ≠ HG_SUCCESS then s.errx 1 "forw_cb destroy hand"
  else
    let nsent := wrap32 (s.nsent + 1)
    { s with
      nsent := nsent
      inflight := s.inflight.erase c.handle
      signalled := if cfg.serialsend = true ∨ nsent ≥ cfg.count
                   then s.signalled ++ [nsent] else s.signalled }

/-- One step of the controlling thread of `run_instance` after the lookup was
launched (source lines 227-289): one evaluation of the loop test it stands at, and the
loop body or the code up to the next loop test. -/
def run_instance_step (cfg : g) (s : State) (e : CtlEnv) : State :=
  match s.pc with
  | Pc.lookup_wait =>
    if s.lst_done = 0 then
      if e.cond_wait_rv ≠ 0 then s.errx 1 "lk cond wait" else s
    else if s.lst_done < 0 then s.errx 1 "lookup failed"
    else if e.mutex_init_rv ≠ 0 then s.errx 1 "s mutex init"
    else if e.cond_init_rv ≠ 0 then { s with nsent := 0 }.errx 1 "scond init"
    else { s with nsent := 0, lcv := 0, pc := Pc.send_loop }
  | Pc.send_loop =>
    if s.lcv < cfg.count then
      if e.create_ret ≠ HG_SUCCESS then s.errx 1 "hg create failed"
      else if e.forward_ret ≠ HG_SUCCESS then s.errx 1 "hg forward failed"
      else if cfg.serialsend = true then
        { s with
          inflight := s.lcv :: s.inflight
          launched := s.launched ++ [wrap32 (s.lcv + 1)]
          pc := Pc.serial_wait }
      else
        { s with
          inflight := s.lcv :: s.inflight
          launched := s.launched ++ [wrap32 (s.lcv + 1)]
          lcv := wrap32 (s.lcv + 1) }
    else { s with pc := Pc.final_wait }
  | Pc.serial_wait =>
    if s.nsent ≤ s.lcv then
      if e.cond_wait_rv ≠ 0 then s.errx 1 "snd ser cond wait" else s
    else { s with lcv := wrap32 (s.lcv + 1), pc := Pc.send_loop }
  | Pc.final_wait =>
    if s.nsent < cfg.count then
      if e.cond_wait_rv ≠ 0 then s.errx 1 "snd cond wait" else s
    else { s with sends_done := 1, pc := Pc.sent }
  | Pc.sent => s

/-- The atomic steps of one client instance. -/
inductive Event where
  | ctl (e : CtlEnv)
  | lookup_done (cbi : hg_cb_info)
  | forw_done (c : ForwardDone)
  deriving DecidableEq, Repr

/-- One atomic step.  Nothing happens after the process has ended; Mercury runs
`lookup_cb` once for the launched lookup and `forw_cb` once for a forwarded handle. -/
def step (cfg : g) (s : State) (ev : Event) : State :=
  if s.exit.isSome then s
  else
    match ev with
    | Event.ctl e => run_instance_step cfg s e
    | Event.lookup_done cbi =>
      if s.lookup_pending = true then { lookup_cb s cbi with lookup_pending := false } else s
    | Event.forw_done c =>
      if c.handle ∈ s.inflight then forw_cb cfg s c else s

/-- The state a schedule leads to. -/
def run (cfg : g) (s : State) (evs : List Event) : State :=
  evs.foldl (step cfg) s

/-- The four conditions `forw_cb` tests before it counts a completion. -/
def ForwardDone.ok (c : ForwardDone) : Prop :=
  c.cbi.ret = HG_SUCCESS ∧ c.cbi.type = HG_CB_FORWARD ∧
  c.get_output_ret = HG_SUCCESS ∧ c.destroy_ret = HG_SUCCESS

instance (c : ForwardDone) : Decidable c.ok := by unfold ForwardDone.ok; infer_instance

/-- The invariant of the client instance: the send-counter, the calls launched and the
calls in flight account for each other, and the controller's program point fixes how many
calls have been launched. -/
def Inv (cfg : g) (s : State) : Prop :=
  0 ≤ s.nsent ∧
  s.nsent + s.inflight.length = s.launched.length ∧
  (s.launched.length : Int) ≤ cfg.count ∧
  s.inflight.Nodup ∧
  (∀ h ∈ s.inflight, 0 ≤ h ∧ h < s.launched.length) ∧
  (s.pc = Pc.lookup_wait → s.launched = []) ∧
  (s.pc = Pc.send_loop →
    s.lcv = s.launched.length ∧ (cfg.serialsend = true → s.nsent = s.lcv)) ∧
  (s.pc = Pc.serial_wait → cfg.serialsend = true ∧ s.lcv + 1 = s.launched.length) ∧
  (s.pc = Pc.final_wait → (s.launched.length : Int) = cfg.count) ∧
  (s.pc = Pc.sent → s.nsent = cfg.count) ∧
  (cfg.serialsend = false →
    s.signalled = if s.nsent = cfg.count then [cfg.count] else [])

/-- The extra invariant of serial discipline: at most one launched call is not yet
counted, and none while the controller is not in its per-call wait. -/
def InvSerial (s : State) : Prop :=
  (s.launched.length : Int) ≤ s.nsent + 1 ∧
  (s.pc ≠ Pc.serial_wait → s.nsent = s.launched.length)

/-- The state of instance `n` after `run_instance` started with `e` and the schedule
`evs` ran. -/
def reached (cfg : g) (n : Int) (e : InitEnv) (evs : List Event) : State :=
  run cfg (run_instance_start n e) evs

/-- An environment of `run_instance` in which every library call succeeds. -/
def okInit : InitEnv :=
  { hgclass_ok := true, hgctx_ok := true, pthread_create_rv := 0, l_mutex_init_rv := 0,
    l_cond_init_rv := 0, lookup_launch_ret := HG_SUCCESS }

/-- An environment of a controller step in which every library call succeeds. -/
def okCtl : CtlEnv :=
  { mutex_init_rv := 0, cond_init_rv := 0, cond_wait_rv := 0, create_ret := HG_SUCCESS,
    forward_ret := HG_SUCCESS }

/-- A successful lookup completion that resolves to address `a`. -/
def okLookup (a : Nat) : hg_cb_info :=
  { ret := HG_SUCCESS, type := HG_CB_LOOKUP, addr := some a }

/-- A successful completion of the call with handle `h`, which carried `h + 1`; the
reply holds the negated input. -/
def okDone (h : Int) : ForwardDone :=
  { cbi := { ret := HG_SUCCESS, type := HG_CB_FORWARD, addr := none }, handle := h,
    get_output_ret := HG_SUCCESS, out_ret := -(h + 1), destroy_ret := HG_SUCCESS }

/-- The completion of the oldest call in flight, or a controller step when no call is
in flight. -/
def complete_one (s : State) : Event :=
  match s.inflight with
  | h :: _ => Event.forw_done (okDone h)
  | [] => Event.ctl okCtl

/-- A failure-free scheduler: the event that lets the instance move on from `s`. -/
def next_event (cfg : g) (s : State) : Event :=
  match s.pc with
  | Pc.lookup_wait =>
    if s.lookup_pending = true then Event.lookup_done (okLookup 0) else Event.ctl okCtl
  | Pc.send_loop => Event.ctl okCtl
  | Pc.serial_wait => if s.nsent ≤ s.lcv then complete_one s else Event.ctl okCtl
  | Pc.final_wait => if s.nsent < cfg.count then complete_one s else Event.ctl okCtl
  | Pc.sent => Event.ctl okCtl

/-- The schedule of `fuel` events the failure-free scheduler produces from `s`. -/
def fair_schedule (cfg : g) : Nat → State → List Event
  | 0, _ => []
  | fuel + 1, s => next_event cfg s :: fair_schedule cfg fuel (step cfg s (next_event cfg s))

/-- A bound on the number of steps the failure-free scheduler still needs. -/
def steps_left (cfg : g) (s : State) : Nat :=
  4 * (cfg.count - s.launched.length).toNat + 2 * s.inflight.length +
    match s.pc with
    | Pc.sent => 0
    | Pc.final_wait => 1
    | Pc.send_loop => 2
    | Pc.serial_wait => 3
    | Pc.lookup_wait => 4

/-- The schedule on which the lookup resolves and the controller then takes `k` more
steps while no completion callback runs. -/
def launch_schedule (k : Nat) : List Event :=
  [Event.lookup_done (okLookup 0), Event.ctl okCtl] ++ List.replicate k (Event.ctl okCtl)

/-- The global data of a run with `N` instances and the default count. -/
def cfg_instances (N : Int) : g :=
  { ninst := N, count := DEF_COUNT, serialsend := false, quiet := false }

/-- The configuration of the end-to-end scenario: one instance, three exchanges, sent in
parallel. -/
def cfg_parallel3 : g := { ninst := 1, count := 3, serialsend := false, quiet := false }

/-- The same scenario with `SERIALSEND` set. -/
def cfg_serial3 : g := { ninst := 1, count := 3, serialsend := true, quiet := false }

/-- A schedule of the parallel scenario: the lookup resolves, the three calls are
launched back to back, and the replies arrive in the order 2, 0, 1. -/
def sched_parallel3 : List Event :=
  [Event.lookup_done (okLookup 7), Event.ctl okCtl,
   Event.ctl okCtl, Event.ctl okCtl, Event.ctl okCtl, Event.ctl okCtl,
   Event.forw_done (okDone 2), Event.forw_done (okDone 0), Event.forw_done (okDone 1),
   Event.ctl okCtl]

/-- A schedule of the serial scenario: each call is launched, completes, and wakes the
controller before the next one is launched. -/
def sched_serial3 : List Event :=
  [Event.lookup_done (okLookup 7), Event.ctl okCtl,
   Event.ctl okCtl, Event.forw_done (okDone 0), Event.ctl okCtl,
   Event.ctl okCtl, Event.forw_done (okDone 1), Event.ctl okCtl,
   Event.ctl okCtl, Event.forw_done (okDone 2), Event.ctl okCtl,
   Event.ctl okCtl, Event.ctl okCtl]

/-- The port `run_instance` prints into `is[n].myid`: `g.ninst+n+BASEPORT`. -/
def myid_port (cfg : g) (n : Int) : Int := wrap32 (wrap32 (cfg.ninst + n) + BASEPORT)

/-- The port `run_instance` prints into `is[n].remoteid`: `n+BASEPORT`. -/
def remoteid_port (n : Int) : Int := wrap32 (n + BASEPORT)

/-- The exchange count `main` stores in `g.count`; `c` is what `atoi` returns for the
environment variable `COUNT`, or `none` when the variable is not set. -/
def main_count (c : Option Int) : Int :=
  match c with
  | some rv => if rv > 0 then rv else DEF_COUNT
  | none => DEF_COUNT

/-- The exchange count `main` computes from the environment: `COUNT` is the value of the
variable `COUNT`, or `none` when it is not set. -/
def count_of_env (COUNT : Option (List Char)) : Int := main_count (COUNT.map atoi)

/-- The quotient `diff / g.count` that `run_instance` prints as average time per RPC:
`diff` is a `uint64_t`, so the `int` count is converted to `uint64_t` first.  A division
by zero has no result. -/
def average_time_per_rpc (diff : Nat) (count : Int) : Option Nat :=
  if (count % 18446744073709551616).toNat = 0 then none
  else some (diff / (count % 18446744073709551616).toNat)

/-- What the command line, the environment and the libraries give `main`, and for every
instance thread what the libraries give it and the schedule it runs under. -/
structure MainEnv where
  argc : Int
  ninst : Int
  count_atoi : Option Int
  serialsend : Bool
  quiet : Bool
  tarr_ok : Bool
  is_ok : Bool
  create_rv : Nat → Int
  inst_env : Nat → InitEnv
  inst_sched : Nat → List Event

/-- The global data `main` sets up from the command line and the environment. -/
def main_g (env : MainEnv) : g :=
  { ninst := env.ninst, count := main_count env.count_atoi,
    serialsend := env.serialsend, quiet := env.quiet }

/-- The thread-creation loop of `main`: `todo` iterations are left, `lcv` is the loop
variable.  The result is the index at which `pthread_create` failed, if any. -/
def create_loop (env : MainEnv) : Nat → Nat → Option Nat
  | 0, _ => none
  | todo + 1, lcv =>
    if env.create_rv lcv ≠ 0 then some lcv else create_loop env todo (lcv + 1)

/-- The final state of instance thread `i` under `main`. -/
def instance_final (env : MainEnv) (i : Nat) : State :=
  run (main_g env) (run_instance_start i (env.inst_env i)) (env.inst_sched i)

/-- The join loop of `main` followed by `exit(0)`.  Instance thread `lcv` ends the
process when its state has an exit, returns when it has passed its final wait, and
otherwise never returns. -/
def join_loop (env : MainEnv) (total : Nat) : Nat → Nat → MainResult
  | 0, lcv => { exit := some (SndRcv.exit 0), created := total, joined := lcv }
  | todo + 1, lcv =>
    let fin := instance_final env lcv
    match fin.exit with
    | some e => { exit := some e, created := total, joined := lcv }
    | none =>
      if fin.pc = Pc.sent then join_loop env total todo (lcv + 1)
      else { exit := none, created := total, joined := lcv }

/-- The client's `main`. -/
def main (env : MainEnv) : MainResult :=
  if env.argc ≠ 4 then
    { exit := some (SndRcv.errx 0 "usage: %s n-instances local-addr-spec remote-addr-spec\n"),
      created := 0, joined := 0 }
  else if env.tarr_ok = false then
    { exit := some (SndRcv.errx 1 "malloc tarr failed"), created := 0, joined := 0 }
  else if env.is_ok = false then
    { exit := some (SndRcv.errx 1 "malloc is failed"), created := 0, joined := 0 }
  else
    match create_loop env env.ninst.toNat 0 with
    | some lcv => { exit := some (SndRcv.exit 1), created := lcv, joined := 0 }
    | none => join_loop env env.ninst.toNat env.ninst.toNat 0

/-- A start of the client with no arguments beyond the program name (`argc = 1`). -/
def no_args : MainEnv :=
  { argc := 1, ninst := 0, count_atoi := none, serialsend := false, quiet := false,
    tarr_ok := true, is_ok := true, create_rv := fun _ => 0, inst_env := fun _ => okInit,
    inst_sched := fun _ => [] }

/-- A start of the client with one instance that runs the end-to-end scenario. -/
def one_instance : MainEnv :=
  { argc := 4, ninst := 1, count_atoi := some 3, serialsend := false, quiet := false,
    tarr_ok := true, is_ok := true, create_rv := fun _ => 0, inst_env := fun _ => okInit,
    inst_sched := fun _ => sched_parallel3 }

/-! ### The client's network thread

`run_network` of the client reads `sends_done`, which the controlling thread writes
without a lock.  Its steps are therefore finer than the loop body: the test of the `while`,
one `HG_Trigger` call, the test before `HG_Progress`, and the `HG_Progress` call are
four separate steps, and the controlling thread may run between any two of them. -/

/-- A callback Mercury runs from inside `HG_Trigger` on the client: `lookup_cb`,
`forw_cb`, or the client's `rpchandler`. -/
inductive NetCallback where
  | lookup (cbi : hg_cb_info)
  | forward (c : ForwardDone)
  | request
  deriving DecidableEq, Repr

/-- One call `HG_Trigger(ctx, 0, 1, &actual)`: the callback it ran, if any, the status
it returned and the value it left in `actual`. -/
structure NetTrigger where
  cb : Option NetCallback
  ret : hg_return_t
  actual : Nat
  deriving DecidableEq, Repr

/-- Where the network thread `run_network` stands. -/
inductive NetPc where
  | loop_test
  | trigger
  | recheck
  | progress
  | complete
  deriving DecidableEq, Repr

/-- A call the network thread makes into Mercury, with the value `sends_done` has at the
moment of the call. -/
inductive NetCall where
  | trigger (timeout : Int) (max_count : Int) (sends_done : Int)
  | progress (timeout : Int) (sends_done : Int)
  deriving DecidableEq, Repr

/-- Whether a recorded call is an `HG_Progress` call. -/
def NetCall.isProgress : NetCall → Bool
  | NetCall.trigger _ _ _ => false
  | NetCall.progress _ _ => true

/-- One client instance with both its threads: the shared instance state, the program
point of the network thread, and the record of its calls into Mercury. -/
structure Sys where
  inst : State
  net : NetPc
  calls : List NetCall
  deriving DecidableEq, Repr

/-- The client's `rpchandler`: a request on the client ends the process. -/
def rpchandler (s : State) : State := s.errx 1 "rpchandler called on client?!?!"

/-- The callback of one trigger call runs on the instance state. -/
def net_deliver (cfg : g) (s : State) : Option NetCallback → State
  | none => s
  | some (NetCallback.lookup cbi) => step cfg s (Event.lookup_done cbi)
  | some (NetCallback.forward c) => step cfg s (Event.forw_done c)
  | some NetCallback.request => rpchandler s

/-- One step of the client's `run_network`; `o` is what Mercury answers when the step is
an `HG_Trigger` call. -/
def run_network_step (cfg : g) (y : Sys) (o : NetTrigger) : Sys :=
  match y.net with
  | NetPc.loop_test =>
    if y.inst.sends_done ≠ 0 then { y with net := NetPc.complete }
    else { y with net := NetPc.trigger }
  | NetPc.trigger =>
    { inst := net_deliver cfg y.inst o.cb
      net := if o.ret = HG_SUCCESS ∧ o.actual ≠ 0 then NetPc.trigger else NetPc.recheck
      calls := y.calls ++ [NetCall.trigger 0 1 y.inst.sends_done] }
  | NetPc.recheck =>
    if y.inst.sends_done ≠ 0 then { y with net := NetPc.loop_test }
    else { y with net := NetPc.progress }
  | NetPc.progress =>
    { y with
      net := NetPc.loop_test
      calls := y.calls ++ [NetCall.progress 100 y.inst.sends_done] }
  | NetPc.complete => y

/-- The atomic steps of a client instance with its network thread. -/
inductive SysEvent where
  | ctl (e : CtlEnv)
  | net (o : NetTrigger)
  deriving DecidableEq, Repr

/-- One atomic step of either thread.  Nothing happens after the process has ended. -/
def sys_step (cfg : g) (y : Sys) (ev : SysEvent) : Sys :=
  if y.inst.exit.isSome then y
  else
    match ev with
    | SysEvent.ctl e => { y with inst := run_instance_step cfg y.inst e }
    | SysEvent.net o => run_network_step cfg y o

/-- The instance when `run_instance` has started its network thread and launched the
lookup. -/
def sys_start (n : Int) (e : InitEnv) : Sys :=
  { inst := run_instance_start n e, net := NetPc.loop_test, calls := [] }

/-- The state a schedule of both threads leads to. -/
def sys_run (cfg : g) (y : Sys) (evs : List SysEvent) : Sys :=
  evs.foldl (sys_step cfg) y

/-- A run with one exchange. -/
def cfg_one_call : g := { ninst := 1, count := 1, serialsend := false, quiet := false }

/-- A trigger call on the client that found nothing to deliver. -/
def net_idle : NetTrigger := { cb := none, ret := HG_FAIL 2, actual := 0 }

/-- A trigger call on the client that ran the callback `cb`. -/
def net_ran (cb : NetCallback) : NetTrigger :=
  { cb := some cb, ret := HG_SUCCESS, actual := 1 }

/-- A schedule with one exchange on which the controlling thread sets `sends_done`
after the network thread tested it and before the network thread calls `HG_Progress`. -/
def sched_late_flag : List SysEvent :=
  [SysEvent.net net_idle,
   SysEvent.net (net_ran (NetCallback.lookup (okLookup 7))),
   SysEvent.ctl okCtl, SysEvent.ctl okCtl, SysEvent.ctl okCtl,
   SysEvent.net (net_ran (NetCallback.forward (okDone 0))),
   SysEvent.net net_idle,
   SysEvent.net net_idle,
   SysEvent.ctl okCtl,
   SysEvent.net net_idle,
   SysEvent.net net_idle]

/-- What holds of the client's network thread in every state: every cycle drains first,
the calls are `HG_Trigger(ctx, 0, 1, &actual)` and `HG_Progress(ctx, 100)`, the thread
stands before the second test or before `HG_Progress` only right after a trigger call,
and it has left the loop only with `sends_done` set. -/
def NetInv (y : Sys) : Prop :=
  drain_first (y.calls.map NetCall.isProgress) ∧
  (∀ c ∈ y.calls, (∃ f, c = NetCall.trigger 0 1 f) ∨ (∃ f, c = NetCall.progress 100 f)) ∧
  (y.net = NetPc.recheck ∨ y.net = NetPc.progress →
    (y.calls.map NetCall.isProgress).getLast? = some false) ∧
  (y.net = NetPc.complete → y.inst.sends_done ≠ 0)

end Client

/-! ## Server (`sndrcv-srvr.cc`) -/

namespace Server

/-- The server's `struct g`: shared global data. -/
structure g where
  count : Int
  deriving DecidableEq, Repr

/-- A call the network thread makes into Mercury. -/
inductive Call where
  | trigger (timeout : Int) (max_count : Int)
  | progress (timeout : Int)
  deriving DecidableEq, Repr

/-- Whether a recorded call is an `HG_Progress` call. -/
def Call.isProgress : Call → Bool
  | Call.trigger _ _ => false
  | Call.progress _ => true

/-- State of one server instance: `is[n].got`, whether `run_network` has left its
loop, and two records kept for the statements below: the payloads handed to
`HG_Respond` and the calls made into Mercury. -/
structure State where
  n : Int
  got : Int
  net_done : Bool
  replied : List Int
  calls : List Call
  exit : Option ProcExit
  deriving DecidableEq, Repr

/-- The process ends here with `errx(eval, msg)`. -/
def State.errx (s : State) (eval : Int) (msg : String) : State :=
  { s with exit := some (SndRcv.errx eval msg) }

/-- What Mercury gives one call of `rpchandler`: whether `HG_Get_info` finds the handle,
the registered pointer to `n` (`none` for `NULL`) with the value it points to, the status
of `HG_Get_input`, the decoded field `in.ret`, and the status of `HG_Respond`. -/
structure HandlerCall where
  hgi_ok : Bool
  np : Option Int
  get_input_ret : hg_return_t
  in_ret : Int
  respond_ret : hg_return_t
  deriving DecidableEq, Repr

/-- The reply payload `rpchandler` computes: `out.ret = in.ret * -1`. -/
def out_ret (in_ret : Int) : Int := wrap32 (in_ret * -1)

/-- The server's `rpchandler`, called when a new RPC comes in. -/
def rpchandler (s : State) (h : HandlerCall) : State :=
  if h.hgi_ok = false then s.errx 1 "bad hgi"
  else
    match h.np with
    | none => s.errx 1 "bad np"
    | some _ =>
      if h.get_input_ret ≠ HG_SUCCESS then s.errx 1 "HG_Get_input failed"
      else if h.respond_ret ≠ HG_SUCCESS then s.errx 1 "HG_Respond failed"
      else { s with replied := s.replied ++ [out_ret h.in_ret] }

/-- The callback `reply_sent_cb`, called after the reply to an RPC completes. -/
def reply_sent_cb (s : State) (cbi : hg_cb_info) : State :=
  if cbi.type ≠ HG_CB_RESPOND then s.errx 1 "unexpected sent cb"
  else { s with got := wrap32 (s.got + 1) }

/-- A callback Mercury runs from inside `HG_Trigger`. -/
inductive Callback where
  | request (h : HandlerCall)
  | respond (cbi : hg_cb_info)
  deriving DecidableEq, Repr

/-- One call `HG_Trigger(ctx, 0, 1, &actual)`: the callback it ran, if any, the status
it returned and the value it left in `actual`. -/
structure Trigger where
  cb : Option Callback
  ret : hg_return_t
  actual : Nat
  deriving DecidableEq, Repr

/-- The callback of one trigger call runs on the instance state. -/
def deliver (s : State) : Option Callback → State
  | none => s
  | some (Callback.request h) => rpchandler s h
  | some (Callback.respond cbi) => reply_sent_cb s cbi

/-- Entry of `run_network`: `is[n].got = 0`, then the first test of the loop guard. -/
def run_network_start (cfg : g) (s : State) : State :=
  if (0 : Int) < cfg.count then { s with got := 0 }
  else { s with got := 0, net_done := true }

/-- One pass through the body of the `do ... while` of `run_network`, which is one
`HG_Trigger` call, and, when the `do ... while` ends, the recheck with `HG_Progress`
and the next test of the loop guard.  `HG_Progress` runs no callback, so both tests
read the same `got`. -/
def run_network_step (cfg : g) (s : State) (o : Trigger) : State :=
  if s.exit.isSome ∨ s.net_done = true then s
  else
    let s1 := deliver { s with calls := s.calls ++ [Call.trigger 0 1] } o.cb
    if s1.exit.isSome then s1
    else if o.ret = HG_SUCCESS ∧ o.actual ≠ 0 then s1
    else if s1.got < cfg.count then { s1 with calls := s1.calls ++ [Call.progress 100] }
    else { s1 with net_done := true }

/-- The network thread `run_network` on the trigger calls Mercury answers. -/
def run_network (cfg : g) (s : State) (tr : List Trigger) : State :=
  tr.foldl (run_network_step cfg) (run_network_start cfg s)

/-- What the libraries return to the server's `run_instance`. -/
structure InitEnv where
  hgclass_ok : Bool
  hgctx_ok : Bool
  register_data_ret : hg_return_t
  pthread_create_rv : Int
  deriving DecidableEq, Repr

/-- The instance slot after `memset(is, 0, ...)` in `main`, with `is[lcv].n = lcv`. -/
def State.zero (n : Int) : State :=
  { n := n, got := 0, net_done := false, replied := [], calls := [], exit := none }

/-- The server's `run_instance` with its network thread. -/
def run_instance (cfg : g) (n : Int) (e : InitEnv) (tr : List Trigger) : State :=
  let s := State.zero n
  if e.hgclass_ok = false then s.errx 1 "HG_init failed"
  else if e.hgctx_ok = false then s.errx 1 "HG_Context_create failed"
  else if e.register_data_ret ≠ HG_SUCCESS then s.errx 1 "unable to register n as data"
  else if e.pthread_create_rv ≠ 0 then s.errx 1 "pthread create srvr failed"
  else run_network cfg s tr

/-- The port `run_instance` prints into `is[n].myid`: `n+BASEPORT`. -/
def myid_port (n : Int) : Int := wrap32 (n + BASEPORT)

/-- Whether a trigger call ran `reply_sent_cb`. -/
def isReply : Trigger → Bool
  | { cb := some (Callback.respond _), .. } => true
  | _ => false

/-- What holds of the record of calls of `run_network` in every state: every cycle
drains first, the calls are `HG_Trigger(ctx, 0, 1, &actual)` and `HG_Progress(ctx, 100)`,
a progress call is only the last call while `got` is below the count and the loop is
running, and the loop is only left with `got` at or above the count. -/
def LogInv (cfg : g) (s : State) : Prop :=
  drain_first (s.calls.map Call.isProgress) ∧
  (∀ c ∈ s.calls, c = Call.trigger 0 1 ∨ c = Call.progress 100) ∧
  ((s.calls.map Call.isProgress).getLast? = some true →
    s.got < cfg.count ∧ s.net_done = false) ∧
  (s.net_done = true → cfg.count ≤ s.got)

/-- The callback of a trigger call, if any, returns instead of ending the process. -/
def passes (o : Trigger) : Prop :=
  match o.cb with
  | none => True
  | some (Callback.request h) =>
    h.hgi_ok = true ∧ h.np.isSome = true ∧ h.get_input_ret = HG_SUCCESS ∧
      h.respond_ret = HG_SUCCESS
  | some (Callback.respond cbi) => cbi.type = HG_CB_RESPOND

instance (o : Trigger) : Decidable (passes o) := by
  unfold passes
  split <;> infer_instance

/-- A trigger call that ends the `do ... while`: no callback ran and the loop test
`ret == HG_SUCCESS && actual` fails. -/
def ends_drain (o : Trigger) : Prop :=
  o.cb = none ∧ ¬ (o.ret = HG_SUCCESS ∧ o.actual ≠ 0)

instance (o : Trigger) : Decidable (ends_drain o) := by unfold ends_drain; infer_instance

/-- A trigger call that found nothing to deliver (Mercury's timeout status, `actual` 0). -/
def idle : Trigger := { cb := none, ret := HG_FAIL 2, actual := 0 }

/-- A trigger call that ran `rpchandler` on a request carrying `v`. -/
def okRequest (v : Int) : Trigger :=
  { cb := some (Callback.request
      { hgi_ok := true, np := some 0, get_input_ret := HG_SUCCESS, in_ret := v,
        respond_ret := HG_SUCCESS }),
    ret := HG_SUCCESS, actual := 1 }

/-- A trigger call that ran `reply_sent_cb` on a delivered reply. -/
def okReply : Trigger :=
  { cb := some (Callback.respond { ret := HG_SUCCESS, type := HG_CB_RESPOND, addr := none }),
    ret := HG_SUCCESS, actual := 1 }

/-- A trigger call that ran `reply_sent_cb` on a reply whose completion reports the
failure code `code`. -/
def failedReply (code : Nat) : Trigger :=
  { cb := some (Callback.respond { ret := HG_FAIL code, type := HG_CB_RESPOND, addr := none }),
    ret := HG_SUCCESS, actual := 1 }

/-- The server side of the end-to-end scenario: requests 1, 2, 3 arrive, three replies
complete, the drain ends. -/
def trace3 : List Trigger :=
  [okRequest 1, okReply, idle, okRequest 2, okRequest 3, okReply, okReply, idle]

/-- What the command line, the environment and the libraries give `main`, and for every
instance thread what the libraries give it and the trigger calls Mercury answers. -/
structure MainEnv where
  argc : Int
  n : Int
  count_atoi : Option Int
  tarr_ok : Bool
  is_ok : Bool
  create_rv : Nat → Int
  inst_env : Nat → InitEnv
  inst_trace : Nat → List Trigger

/-- The global data `main` sets up from the environment. -/
def main_g (env : MainEnv) : g := { count := Client.main_count env.count_atoi }

/-- The thread-creation loop of `main`. -/
def create_loop (env : MainEnv) : Nat → Nat → Option Nat
  | 0, _ => none
  | todo + 1, lcv =>
    if env.create_rv lcv ≠ 0 then some lcv else create_loop env todo (lcv + 1)

/-- The final state of instance thread `i` under `main`. -/
def instance_final (env : MainEnv) (i : Nat) : State :=
  run_instance (main_g env) i (env.inst_env i) (env.inst_trace i)

/-- The join loop of `main` followed by `exit(0)`.  Instance thread `lcv` ends the
process when its state has an exit, returns when its network thread has left its loop,
and otherwise never returns. -/
def join_loop (env : MainEnv) (total : Nat) : Nat → Nat → MainResult
  | 0, lcv => { exit := some (SndRcv.exit 0), created := total, joined := lcv }
  | todo + 1, lcv =>
    let fin := instance_final env lcv
    match fin.exit with
    | some e => { exit := some e, created := total, joined := lcv }
    | none =>
      if fin.net_done = true then join_loop env total todo (lcv + 1)
      else { exit := none, created := total, joined := lcv }

/-- The server's `main`. -/
def main (env : MainEnv) : MainResult :=
  if env.argc ≠ 3 then
    { exit := some (SndRcv.errx 0 "usage: %s n-instances local-addr-spec"),
      created := 0, joined := 0 }
  else if env.tarr_ok = false then
    { exit := some (SndRcv.errx 1 "malloc tarr failed"), created := 0, joined := 0 }
  else if env.is_ok = false then
    { exit := some (SndRcv.errx 1 "malloc is failed"), created := 0, joined := 0 }
  else
    match create_loop env env.n.toNat 0 with
    | some lcv => { exit := some (SndRcv.exit 1), created := lcv, joined := 0 }
    | none => join_loop env env.n.toNat env.n.toNat 0

/-- An environment of `run_instance` in which every library call succeeds. -/
def okInit : InitEnv :=
  { hgclass_ok := true, hgctx_ok := true, register_data_ret := HG_SUCCESS,
    pthread_create_rv := 0 }

/-- A start of the server with no arguments beyond the program name (`argc = 1`). -/
def no_args : MainEnv :=
  { argc := 1, n := 0, count_atoi := none, tarr_ok := true, is_ok := true,
    create_rv := fun _ => 0, inst_env := fun _ => okInit, inst_trace := fun _ => [] }

/-- A start of the server with one instance that serves the end-to-end scenario. -/
def one_instance : MainEnv :=
  { argc := 3, n := 1, count_atoi := some 3, tarr_ok := true, is_ok := true,
    create_rv := fun _ => 0, inst_env := fun _ => okInit, inst_trace := fun _ => trace3 }

end Server

end SndRcv

/-! ## Theorems -/

namespace SndRcv

open hg_return_t hg_cb_type

theorem wrap32_eq (x : Int) (h1 : INT_MIN ≤ x) (h2 : x ≤ INT_MAX) : wrap32 x = x := by
  unfold INT_MIN at h1
  unfold INT_MAX at h2
  unfold wrap32
  omega

namespace Client

theorem inv_start (cfg : g) (hk : 1 ≤ cfg.count) (n : Int) (e : InitEnv) :
    Inv cfg (run_instance_start n e) := by
  unfold run_instance_start
  split_ifs <;> simp [Inv, State.errx, State.zero] <;>
    exact ⟨by omega, fun _ => by omega⟩

theorem inv_forw_cb (cfg : g) (hmax : cfg.count ≤ INT_MAX) (s : State) (c : ForwardDone)
    (hc : c.handle ∈ s.inflight) (h : Inv cfg s) : Inv cfg (forw_cb cfg s c) := by
  obtain ⟨h0, hsum, hle, hnd, hrange, hlk, hsend, hser, hfin, hsent, hsig⟩ := h
  have hlen : 0 < s.inflight.length := List.length_pos_of_mem hc
  have hw : wrap32 (s.nsent + 1) = s.nsent + 1 := by
    apply wrap32_eq <;> simp only [INT_MIN, INT_MAX] at * <;> omega
  unfold forw_cb
  split_ifs <;> simp only [State.errx, Inv, hw]
  · exact ⟨h0, hsum, hle, hnd, hrange, hlk, hsend, hser, hfin, hsent, hsig⟩
  · exact ⟨h0, hsum, hle, hnd, hrange, hlk, hsend, hser, hfin, hsent, hsig⟩
  · exact ⟨h0, hsum, hle, hnd, hrange, hlk, hsend, hser, hfin, hsent, hsig⟩
  · exact ⟨h0, hsum, hle, hnd, hrange, hlk, hsend, hser, hfin, hsent, hsig⟩
  · have hel : (s.inflight.erase c.handle).length = s.inflight.length - 1 :=
      List.length_erase_of_mem hc
    refine ⟨by omega, by omega, hle, hnd.erase _, ?_, hlk, ?_, hser, hfin, ?_, ?_⟩
    · intro h hh
      exact hrange h (List.mem_of_mem_erase hh)
    · intro hp
      have := hsend hp
      exact ⟨this.1, fun hs => by have := this.2 hs; omega⟩
    · intro hp
      have := hsent hp
      omega
    · intro hs
      have hsig1 := hsig hs
      have hne : ¬ s.nsent = cfg.count := by omega
      rw [if_neg hne] at hsig1
      simp only [hs, Bool.false_eq_true, false_or, hsig1, List.nil_append]
      by_cases hq : s.nsent + 1 = cfg.count
      · have : s.nsent + 1 ≥ cfg.count := by omega
        simp [hq]
      · have : ¬ s.nsent + 1 ≥ cfg.count := by omega
        simp [hq, this]

theorem inv_lookup_cb (cfg : g) (s : State) (cbi : hg_cb_info) (h : Inv cfg s) :
    Inv cfg { lookup_cb s cbi with lookup_pending := false } := by
  unfold lookup_cb
  split_ifs <;> exact h

theorem inv_run_instance_step (cfg : g) (hk : 1 ≤ cfg.count) (hmax : cfg.count ≤ INT_MAX)
    (s : State) (e : CtlEnv) (h : Inv cfg s) : Inv cfg (run_instance_step cfg s e) := by
  have h' := h
  obtain ⟨h0, hsum, hle, hnd, hrange, hlk, hsend, hser, hfin, hsent, hsig⟩ := h'
  have hmax' : cfg.count ≤ 2147483647 := hmax
  unfold run_instance_step
  split
  next hpc =>
    have hl := hlk hpc
    have hn : s.nsent = 0 := by
      have : s.launched.length = 0 := by simp [hl]
      omega
    have hi : s.inflight = [] := by
      have : s.launched.length = 0 := by simp [hl]
      apply List.eq_nil_of_length_eq_zero
      omega
    split_ifs
    · exact h
    · exact h
    · exact h
    · exact h
    · simp only [State.errx, Inv, hl, hpc, hi]
      have := hsig
      simp [hn] at this ⊢
      exact ⟨by omega, this⟩
    · simp only [State.errx, Inv, hl, hpc, hi]
      have := hsig
      simp [hn] at this ⊢
      exact ⟨by omega, this⟩
  next hpc =>
    obtain ⟨hlcv, hsn⟩ := hsend hpc
    split_ifs with hlt h1 h2 h3
    · exact h
    · exact h
    · have hw : wrap32 (s.lcv + 1) = s.lcv + 1 := by
        apply wrap32_eq <;> simp only [INT_MIN, INT_MAX] <;> omega
      have hnot : s.lcv ∉ s.inflight := fun hm => by have := hrange _ hm; omega
      simp only [Inv, hw]
      simp
      refine ⟨h0, by omega, by omega, ⟨hnot, hnd⟩, ⟨by omega, fun a ha => ?_⟩,
        ⟨h3, hlcv⟩, hsig⟩
      have := hrange a ha
      omega
    · have hw : wrap32 (s.lcv + 1) = s.lcv + 1 := by
        apply wrap32_eq <;> simp only [INT_MIN, INT_MAX] <;> omega
      have hnot : s.lcv ∉ s.inflight := fun hm => by have := hrange _ hm; omega
      simp only [Inv, hw, hpc]
      simp
      refine ⟨h0, by omega, by omega, ⟨hnot, hnd⟩, ⟨by omega, fun a ha => ?_⟩,
        ⟨hlcv, fun hs => absurd hs h3⟩, hsig⟩
      have := hrange a ha
      omega
    · simp only [Inv]
      simp
      refine ⟨h0, hsum, hle, hnd, hrange, by omega, hsig⟩
  next hpc =>
    obtain ⟨hs, hlcv⟩ := hser hpc
    split_ifs with hlt h1
    · exact h
    · exact h
    · have hw : wrap32 (s.lcv + 1) = s.lcv + 1 := by
        apply wrap32_eq <;> simp only [INT_MIN, INT_MAX] <;> omega
      simp only [Inv, hw]
      simp
      refine ⟨h0, hsum, hle, hnd, hrange, ⟨hlcv, fun _ => by omega⟩, hsig⟩
  next hpc =>
    have hl := hfin hpc
    split_ifs with hlt h1
    · exact h
    · exact h
    · simp only [Inv]
      simp
      refine ⟨h0, hsum, hle, hnd, hrange, by omega, hsig⟩
  next hpc => exact h

theorem inv_step (cfg : g) (hk : 1 ≤ cfg.count) (hmax : cfg.count ≤ INT_MAX)
    (s : State) (ev : Event) (h : Inv cfg s) : Inv cfg (step cfg s ev) := by
  cases ev with
  | ctl e =>
    simp only [step]
    split_ifs
    · exact h
    · exact inv_run_instance_step cfg hk hmax s e h
  | lookup_done cbi =>
    simp only [step]
    split_ifs
    · exact h
    · exact inv_lookup_cb cfg s cbi h
    · exact h
  | forw_done c =>
    simp only [step]
    split_ifs with hx hc
    · exact h
    · exact inv_forw_cb cfg hmax s c hc h
    · exact h

theorem inv_run (cfg : g) (hk : 1 ≤ cfg.count) (hmax : cfg.count ≤ INT_MAX)
    (evs : List Event) : ∀ s : State, Inv cfg s → Inv cfg (run cfg s evs) := by
  induction evs with
  | nil => intro s h; exact h
  | cons ev evs ih =>
    intro s h
    exact ih (step cfg s ev) (inv_step cfg hk hmax s ev h)

theorem inv_reachable (cfg : g) (hk : 1 ≤ cfg.count) (hmax : cfg.count ≤ INT_MAX)
    (n : Int) (e : InitEnv) (evs : List Event) :
    Inv cfg (run cfg (run_instance_start n e) evs) :=
  inv_run cfg hk hmax evs _ (inv_start cfg hk n e)

theorem nsent_step_mono (cfg : g) (hmax : cfg.count ≤ INT_MAX)
    (s : State) (ev : Event) (h : Inv cfg s) : s.nsent ≤ (step cfg s ev).nsent := by
  obtain ⟨h0, hsum, hle, hnd, hrange, hlk, hsend, hser, hfin, hsent, hsig⟩ := h
  have hmax' : cfg.count ≤ 2147483647 := hmax
  cases ev with
  | ctl e =>
    simp only [step]
    split_ifs
    · exact le_refl _
    · unfold run_instance_step
      split
      next hpc =>
        have hl := hlk hpc
        have hn : s.nsent = 0 := by
          have : s.launched.length = 0 := by simp [hl]
          omega
        split_ifs <;> simp [State.errx, hn]
      next hpc => split_ifs <;> simp [State.errx]
      next hpc => split_ifs <;> simp [State.errx]
      next hpc => split_ifs <;> simp [State.errx]
      next hpc => exact le_refl _
  | lookup_done cbi =>
    simp only [step, lookup_cb]
    split_ifs <;> simp
  | forw_done c =>
    simp only [step]
    split_ifs with hx hc
    · exact le_refl _
    · have hlen : 0 < s.inflight.length := List.length_pos_of_mem hc
      have hw : wrap32 (s.nsent + 1) = s.nsent + 1 := by
        apply wrap32_eq <;> simp only [INT_MIN, INT_MAX] <;> omega
      unfold forw_cb
      split_ifs <;> simp [State.errx, hw]
    · exact le_refl _

theorem fair_step (cfg : g) (hmax : cfg.count ≤ INT_MAX) (s : State) (h : Inv cfg s)
    (hx : s.exit = none) (hlk : s.pc ≠ Pc.lookup_wait) (hs : s.pc ≠ Pc.sent) :
    (step cfg s (next_event cfg s)).exit = none ∧
    (step cfg s (next_event cfg s)).pc ≠ Pc.lookup_wait ∧
    steps_left cfg (step cfg s (next_event cfg s)) < steps_left cfg s := by
  obtain ⟨h0, hsum, hle, hnd, hrange, -, hsend, hser, hfin, hsent, hsig⟩ := h
  have hmax' : cfg.count ≤ 2147483647 := hmax
  cases hpc : s.pc with
  | lookup_wait => exact absurd hpc hlk
  | sent => exact absurd hpc hs
  | send_loop =>
    obtain ⟨hlcv, -⟩ := hsend hpc
    simp only [next_event, hpc, step, hx, Option.isSome_none, Bool.false_eq_true, if_false,
      run_instance_step, okCtl]
    by_cases hlt : s.lcv < cfg.count
    · by_cases hser : cfg.serialsend = true
      · simp [hlt, hser, steps_left, hpc, hx]
        omega
      · simp [hlt, hser, steps_left, hpc, hx]
        omega
    · simp [hlt, steps_left, hpc, hx]
  | serial_wait =>
    obtain ⟨hss, hlcv⟩ := hser hpc
    simp only [next_event, hpc]
    by_cases hw : s.nsent ≤ s.lcv
    · cases hi : s.inflight with
      | nil =>
        rw [hi] at hsum
        simp at hsum
        omega
      | cons a l =>
        have hlen : s.inflight.length = l.length + 1 := by rw [hi]; rfl
        have hw32 : wrap32 (s.nsent + 1) = s.nsent + 1 := by
          apply wrap32_eq <;> simp only [INT_MIN, INT_MAX] <;> omega
        simp [hw, complete_one, hi, step, hx, forw_cb, okDone, hw32, steps_left, hpc]
    · simp [hw, step, hx, run_instance_step, hpc, steps_left]
  | final_wait =>
    have hl := hfin hpc
    simp only [next_event, hpc]
    by_cases hw : s.nsent < cfg.count
    · cases hi : s.inflight with
      | nil =>
        rw [hi] at hsum
        simp at hsum
        omega
      | cons a l =>
        have hlen : s.inflight.length = l.length + 1 := by rw [hi]; rfl
        have hw32 : wrap32 (s.nsent + 1) = s.nsent + 1 := by
          apply wrap32_eq <;> simp only [INT_MIN, INT_MAX] <;> omega
        simp [hw, complete_one, hi, step, hx, forw_cb, okDone, hw32, steps_left, hpc]
    · simp [hw, step, hx, run_instance_step, hpc, steps_left]

theorem run_append (cfg : g) (s : State) (a b : List Event) :
    run cfg s (a ++ b) = run cfg (run cfg s a) b := by
  simp [run, List.foldl_append]

theorem fair_schedule_reaches (cfg : g) (hk : 1 ≤ cfg.count) (hmax : cfg.count ≤ INT_MAX) :
    ∀ (fuel : Nat) (s : State), Inv cfg s → s.exit = none → s.pc ≠ Pc.lookup_wait →
      steps_left cfg s ≤ fuel →
      (run cfg s (fair_schedule cfg fuel s)).pc = Pc.sent ∧
      (run cfg s (fair_schedule cfg fuel s)).exit = none := by
  intro fuel
  induction fuel with
  | zero =>
    intro s _ hx _ hm
    have hpc : s.pc = Pc.sent := by
      cases hpc : s.pc <;> simp [steps_left, hpc] at hm ⊢
    exact ⟨hpc, hx⟩
  | succ fuel ih =>
    intro s h hx hlk hm
    show (run cfg (step cfg s (next_event cfg s)) (fair_schedule cfg fuel _)).pc = Pc.sent ∧
      (run cfg (step cfg s (next_event cfg s)) (fair_schedule cfg fuel _)).exit = none
    by_cases hs : s.pc = Pc.sent
    · have hst : step cfg s (next_event cfg s) = s := by
        simp [next_event, hs, step, hx, run_instance_step]
      have h' := h
      obtain ⟨h0, hsum, hle, -, -, -, -, -, -, hsent, -⟩ := h'
      have hn := hsent hs
      have hz : steps_left cfg s = 0 := by
        have hi : s.inflight.length = 0 := by omega
        simp only [steps_left, hs, hi]
        omega
      rw [hst]
      exact ih s h hx hlk (by omega)
    · obtain ⟨hx', hlk', hlt⟩ := fair_step cfg hmax s h hx hlk hs
      exact ih _ (inv_step cfg hk hmax s _ h) hx' hlk' (by omega)

theorem start_resolved (cfg : g) (n : Int) :
    (run cfg (run_instance_start n okInit) [Event.lookup_done (okLookup 0), Event.ctl okCtl]).pc
      = Pc.send_loop ∧
    (run cfg (run_instance_start n okInit) [Event.lookup_done (okLookup 0), Event.ctl okCtl]).exit
      = none := by
  simp [run, step, run_instance_start, okInit, State.zero, lookup_cb, okLookup,
    run_instance_step, okCtl]

theorem completing_schedule (cfg : g) (hk : 1 ≤ cfg.count) (hmax : cfg.count ≤ INT_MAX)
    (n : Int) :
    ∃ evs : List Event,
      (run cfg (run_instance_start n okInit) evs).pc = Pc.sent ∧
      (run cfg (run_instance_start n okInit) evs).exit = none ∧
      (run cfg (run_instance_start n okInit) evs).nsent = cfg.count := by
  obtain ⟨hpc, hx⟩ := start_resolved cfg n
  have hinv := inv_reachable cfg hk hmax n okInit
    [Event.lookup_done (okLookup 0), Event.ctl okCtl]
  obtain ⟨s2, hs2⟩ : ∃ s2, s2 = run cfg (run_instance_start n okInit)
    [Event.lookup_done (okLookup 0), Event.ctl okCtl] := ⟨_, rfl⟩
  rw [← hs2] at hpc hx hinv
  have hlk : s2.pc ≠ Pc.lookup_wait := by rw [hpc]; decide
  obtain ⟨h1, h2⟩ := fair_schedule_reaches cfg hk hmax (steps_left cfg s2) s2 hinv hx hlk
    (le_refl _)
  have hinv2 := inv_run cfg hk hmax (fair_schedule cfg (steps_left cfg s2) s2) s2 hinv
  refine ⟨[Event.lookup_done (okLookup 0), Event.ctl okCtl] ++
    fair_schedule cfg (steps_left cfg s2) s2, ?_, ?_, ?_⟩
  all_goals rw [run_append, ← hs2]
  · exact h1
  · exact h2
  · exact hinv2.2.2.2.2.2.2.2.2.2.1 h1

/-- C1: for every exchange count `k ≥ 1` that a C `int` holds and for both send
disciplines, in the state any schedule of controller steps and completion callbacks
leads to: `nsent` starts at 0, no step decreases it, it is at most the number of calls
launched, which is at most `k`, and once `run_instance` has passed its final wait `nsent`
is exactly `k`; a schedule on which `run_instance` passes its final wait exists. -/
theorem client_send_counter_exact (cfg : g) (hk : 1 ≤ cfg.count)
    (hmax : cfg.count ≤ INT_MAX) (n : Int) (e : InitEnv) (evs : List Event) :
    (run_instance_start n e).nsent = 0 ∧
    (∀ ev : Event, (reached cfg n e evs).nsent ≤
      (step cfg (reached cfg n e evs) ev).nsent) ∧
    0 ≤ (reached cfg n e evs).nsent ∧
    (reached cfg n e evs).nsent ≤
      (reached cfg n e evs).launched.length ∧
    ((reached cfg n e evs).launched.length : Int) ≤ cfg.count ∧
    ((reached cfg n e evs).pc = Pc.sent →
      (reached cfg n e evs).nsent = cfg.count) ∧
    (∃ evs' : List Event,
      (reached cfg n okInit evs').pc = Pc.sent ∧
      (reached cfg n okInit evs').exit = none ∧
      (reached cfg n okInit evs').nsent = cfg.count) := by
  have hinv : Inv cfg (reached cfg n e evs) := inv_reachable cfg hk hmax n e evs
  have hmono := fun ev => nsent_step_mono cfg hmax _ ev hinv
  obtain ⟨h0, hsum, hle, -, -, -, -, -, -, hsent, -⟩ := hinv
  refine ⟨?_, hmono, h0, by omega, hle, hsent, completing_schedule cfg hk hmax n⟩
  unfold run_instance_start
  split_ifs <;> rfl

/-- C1 at the end-to-end scenario: count 3, parallel, replies arriving as 2, 0, 1. -/
theorem client_send_counter_exact_witness :
    (reached cfg_parallel3 0 okInit sched_parallel3).pc = Pc.sent ∧
    (reached cfg_parallel3 0 okInit sched_parallel3).nsent = 3 :=
  ⟨by decide,
   (client_send_counter_exact cfg_parallel3 (by decide) (by decide) 0 okInit
      sched_parallel3).2.2.2.2.2.1 (by decide)⟩

theorem inv_serial_step (cfg : g) (hs : cfg.serialsend = true) (hmax : cfg.count ≤ INT_MAX)
    (s : State) (ev : Event) (h : Inv cfg s) (h2 : InvSerial s) :
    InvSerial (step cfg s ev) := by
  obtain ⟨h0, hsum, hle, hnd, hrange, hlk, hsend, hser, hfin, hsent, hsig⟩ := h
  obtain ⟨ha, hb⟩ := h2
  have hmax' : cfg.count ≤ 2147483647 := hmax
  cases ev with
  | ctl e =>
    simp only [step]
    split_ifs
    · exact ⟨ha, hb⟩
    · unfold run_instance_step
      split
      next hpc =>
        have hl := hlk hpc
        split_ifs <;> simp [State.errx, InvSerial, hpc, hl] <;> simp [hpc, hl] at hb <;> omega
      next hpc =>
        have hn := hb (by rw [hpc]; decide)
        split_ifs <;> simp [State.errx, InvSerial, hpc, hs] <;> omega
      next hpc =>
        obtain ⟨-, hlcv⟩ := hser hpc
        split_ifs <;> simp [State.errx, InvSerial, hpc] <;> omega
      next hpc =>
        have hn := hb (by rw [hpc]; decide)
        split_ifs <;> simp [State.errx, InvSerial, hpc] <;> omega
      next hpc => exact ⟨ha, hb⟩
  | lookup_done cbi =>
    simp only [step, lookup_cb]
    split_ifs <;> exact ⟨ha, hb⟩
  | forw_done c =>
    simp only [step]
    split_ifs with hx hc
    · exact ⟨ha, hb⟩
    · have hlen : 0 < s.inflight.length := List.length_pos_of_mem hc
      have hw : wrap32 (s.nsent + 1) = s.nsent + 1 := by
        apply wrap32_eq <;> simp only [INT_MIN, INT_MAX] <;> omega
      unfold forw_cb
      split_ifs
      · exact ⟨ha, hb⟩
      · exact ⟨ha, hb⟩
      · exact ⟨ha, hb⟩
      · exact ⟨ha, hb⟩
      · simp only [InvSerial, hw]
        exact ⟨by omega, fun _ => by omega⟩
    · exact ⟨ha, hb⟩

theorem inv_serial_run (cfg : g) (hs : cfg.serialsend = true) (hk : 1 ≤ cfg.count)
    (hmax : cfg.count ≤ INT_MAX) (evs : List Event) :
    ∀ s : State, Inv cfg s → InvSerial s → InvSerial (run cfg s evs) := by
  induction evs with
  | nil => intro s _ h2; exact h2
  | cons ev evs ih =>
    intro s h h2
    exact ih (step cfg s ev) (inv_step cfg hk hmax s ev h) (inv_serial_step cfg hs hmax s ev h h2)

theorem inv_serial_start (n : Int) (e : InitEnv) : InvSerial (run_instance_start n e) := by
  unfold run_instance_start
  split_ifs <;> simp [InvSerial, State.errx, State.zero]

theorem launch_in_send_loop (cfg : g) (s : State) (ev : Event)
    (h : (step cfg s ev).launched.length ≠ s.launched.length) : s.pc = Pc.send_loop := by
  cases ev with
  | ctl e =>
    simp only [step] at h
    split_ifs at h
    · exact absurd rfl h
    · unfold run_instance_step at h
      split at h
      next hpc => split_ifs at h <;> simp [State.errx] at h
      next hpc => exact hpc
      next hpc => split_ifs at h <;> simp [State.errx] at h
      next hpc => split_ifs at h <;> simp [State.errx] at h
      next hpc => exact absurd rfl h
  | lookup_done cbi =>
    simp only [step, lookup_cb] at h
    split_ifs at h <;> simp at h
  | forw_done c =>
    simp only [step, forw_cb] at h
    split_ifs at h <;> simp [State.errx] at h

/-- C2: with `SERIALSEND` set, for every count `k ≥ 1` that a C `int` holds, in the state
`s` any schedule leads to: the calls launched exceed `nsent` by at most one (at most one
call is in flight), and for every `i` with `0 ≤ i < k - 1` a step that launches call
`i + 1` is only taken when `nsent` exceeds `i` and call `i` is no longer in flight, that
is after its completion callback `forw_cb` has run. -/
theorem serial_one_outstanding (cfg : g) (hs : cfg.serialsend = true) (hk : 1 ≤ cfg.count)
    (hmax : cfg.count ≤ INT_MAX) (n : Int) (e : InitEnv) (evs : List Event) :
    ((reached cfg n e evs).launched.length : Int) - (reached cfg n e evs).nsent ≤ 1 ∧
    (reached cfg n e evs).inflight.length ≤ 1 ∧
    (∀ (i : Int) (ev : Event), 0 ≤ i → i < cfg.count - 1 →
      ((reached cfg n e evs).launched.length : Int) = i + 1 →
      ((step cfg (reached cfg n e evs) ev).launched.length : Int) = i + 2 →
      i < (reached cfg n e evs).nsent ∧ i ∉ (reached cfg n e evs).inflight) := by
  have hinv : Inv cfg (reached cfg n e evs) := inv_reachable cfg hk hmax n e evs
  have hser : InvSerial (reached cfg n e evs) :=
    inv_serial_run cfg hs hk hmax evs _ (inv_start cfg hk n e) (inv_serial_start n e)
  obtain ⟨h0, hsum, hle, -, -, -, hsend, -, -, -, -⟩ := hinv
  obtain ⟨ha, -⟩ := hser
  refine ⟨by omega, by omega, ?_⟩
  intro i ev _ _ hi hi2
  have hpc : (reached cfg n e evs).pc = Pc.send_loop := by
    apply launch_in_send_loop cfg _ ev
    omega
  obtain ⟨hlcv, hn⟩ := hsend hpc
  have hn' := hn hs
  have hlen : (reached cfg n e evs).inflight.length = 0 := by omega
  rw [List.eq_nil_of_length_eq_zero hlen]
  exact ⟨by omega, by simp⟩

/-- C2 at the serial scenario with count 3: after call 0 completed and the controller
woke up, the step that launches call 1 finds `nsent = 1`. -/
theorem serial_one_outstanding_witness :
    (0 : Int) < (reached cfg_serial3 0 okInit (sched_serial3.take 5)).nsent ∧
    (0 : Int) ∉ (reached cfg_serial3 0 okInit (sched_serial3.take 5)).inflight :=
  (serial_one_outstanding cfg_serial3 (by decide) (by decide) (by decide) 0 okInit
    (sched_serial3.take 5)).2.2 0 (Event.ctl okCtl) (by decide) (by decide) (by decide)
    (by decide)

theorem run_snoc (cfg : g) (s : State) (evs : List Event) (ev : Event) :
    run cfg s (evs ++ [ev]) = step cfg (run cfg s evs) ev := by
  simp [run, List.foldl_append]

theorem launch_all (cfg : g) (hp : cfg.serialsend = false) (hmax : cfg.count ≤ INT_MAX)
    (s : State) (hpc : s.pc = Pc.send_loop) (hx : s.exit = none) (hl : s.lcv = 0) :
    ∀ j : Nat, (j : Int) ≤ cfg.count →
      (run cfg s (List.replicate j (Event.ctl okCtl))).pc = Pc.send_loop ∧
      (run cfg s (List.replicate j (Event.ctl okCtl))).exit = none ∧
      (run cfg s (List.replicate j (Event.ctl okCtl))).lcv = j ∧
      (run cfg s (List.replicate j (Event.ctl okCtl))).nsent = s.nsent ∧
      (run cfg s (List.replicate j (Event.ctl okCtl))).signalled = s.signalled ∧
      (run cfg s (List.replicate j (Event.ctl okCtl))).launched =
        s.launched ++ (List.range j).map (fun i : Nat => (i : Int) + 1) ∧
      (run cfg s (List.replicate j (Event.ctl okCtl))).inflight =
        ((List.range j).map (fun i : Nat => (i : Int))).reverse ++ s.inflight := by
  have hmax' : cfg.count ≤ 2147483647 := hmax
  intro j
  induction j with
  | zero => intro _; simp [run, hpc, hx, hl]
  | succ j ih =>
    intro hj
    obtain ⟨h1, h2, h3, h4, h5, h6, h7⟩ := ih (by push_cast at hj; omega)
    rw [List.replicate_succ', run_snoc]
    generalize run cfg s (List.replicate j (Event.ctl okCtl)) = r at h1 h2 h3 h4 h5 h6 h7
    have hlt : (j : Int) < cfg.count := by push_cast at hj; omega
    have hw : wrap32 ((j : Int) + 1) = (j : Int) + 1 := by
      apply wrap32_eq <;> simp only [INT_MIN, INT_MAX] <;> omega
    simp [step, h2, run_instance_step, h1, hlt, okCtl, hp, hw, h3, h4, h5, h6, h7,
      List.range_succ]

theorem forw_done_ok (cfg : g) (s : State) (c : ForwardDone) (hc : c.ok)
    (hx : s.exit = none) (hm : c.handle ∈ s.inflight) :
    step cfg s (Event.forw_done c) =
      { s with
        nsent := wrap32 (s.nsent + 1)
        inflight := s.inflight.erase c.handle
        signalled := if cfg.serialsend = true ∨ wrap32 (s.nsent + 1) ≥ cfg.count
                     then s.signalled ++ [wrap32 (s.nsent + 1)] else s.signalled } := by
  obtain ⟨h1, h2, h3, h4⟩ := hc
  simp [step, hx, hm, forw_cb, h1, h2, h3, h4]

theorem complete_all (cfg : g) :
    ∀ (cs : List ForwardDone) (s : State), (∀ c ∈ cs, c.ok) →
      (cs.map (fun c => c.handle)).Nodup → (∀ c ∈ cs, c.handle ∈ s.inflight) →
      s.exit = none → INT_MIN ≤ s.nsent → s.nsent + cs.length ≤ INT_MAX →
      (run cfg s (cs.map Event.forw_done)).nsent = s.nsent + cs.length ∧
      (run cfg s (cs.map Event.forw_done)).exit = none ∧
      (run cfg s (cs.map Event.forw_done)).pc = s.pc ∧
      (run cfg s (cs.map Event.forw_done)).launched = s.launched := by
  intro cs
  induction cs with
  | nil => intro s _ _ _ hx _ _; simp [run, hx]
  | cons c cs ih =>
    intro s hok hnd hmem hx hlo hhi
    have hc : c.ok := hok c (List.mem_cons_self _ _)
    have hm : c.handle ∈ s.inflight := hmem c (List.mem_cons_self _ _)
    simp only [List.map_cons, List.nodup_cons, List.mem_map, not_exists, not_and] at hnd
    simp only [List.length_cons, Nat.cast_add, Nat.cast_one] at hhi
    have hw : wrap32 (s.nsent + 1) = s.nsent + 1 := by
      apply wrap32_eq <;> simp only [INT_MIN, INT_MAX] at * <;> omega
    have hstep := forw_done_ok cfg s c hc hx hm
    rw [hw] at hstep
    obtain ⟨s1, hs1⟩ : ∃ s1, s1 = step cfg s (Event.forw_done c) := ⟨_, rfl⟩
    have e1 : s1.nsent = s.nsent + 1 := by rw [hs1, hstep]
    have e2 : s1.exit = none := by rw [hs1, hstep]; exact hx
    have e3 : s1.pc = s.pc := by rw [hs1, hstep]
    have e4 : s1.launched = s.launched := by rw [hs1, hstep]
    have e5 : s1.inflight = s.inflight.erase c.handle := by rw [hs1, hstep]
    show (run cfg (step cfg s (Event.forw_done c)) (cs.map Event.forw_done)).nsent = _ ∧
      (run cfg (step cfg s (Event.forw_done c)) (cs.map Event.forw_done)).exit = none ∧
      (run cfg (step cfg s (Event.forw_done c)) (cs.map Event.forw_done)).pc = s.pc ∧
      (run cfg (step cfg s (Event.forw_done c)) (cs.map Event.forw_done)).launched = s.launched
    rw [← hs1]
    have := ih s1 (fun c' hc' => hok c' (List.mem_cons_of_mem _ hc')) hnd.2
      (fun c' hc' => by
        have hne : c'.handle ≠ c.handle := fun heq => hnd.1 c' hc' heq
        rw [e5]
        exact (List.mem_erase_of_ne hne).mpr (hmem c' (List.mem_cons_of_mem _ hc')))
      e2 (by simp only [INT_MIN] at *; omega) (by omega)
    obtain ⟨a1, a2, a3, a4⟩ := this
    refine ⟨?_, a2, a3.trans e3, a4.trans e4⟩
    rw [a1]
    simp only [List.length_cons, Nat.cast_add, Nat.cast_one]
    omega

theorem resolved_facts (cfg : g) (n : Int) :
    (run cfg (run_instance_start n okInit) [Event.lookup_done (okLookup 0), Event.ctl okCtl]).pc
      = Pc.send_loop ∧
    (run cfg (run_instance_start n okInit) [Event.lookup_done (okLookup 0), Event.ctl okCtl]).exit
      = none ∧
    (run cfg (run_instance_start n okInit) [Event.lookup_done (okLookup 0), Event.ctl okCtl]).lcv
      = 0 ∧
    (run cfg (run_instance_start n okInit) [Event.lookup_done (okLookup 0), Event.ctl okCtl]).nsent
      = 0 ∧
    (run cfg (run_instance_start n okInit)
      [Event.lookup_done (okLookup 0), Event.ctl okCtl]).signalled = [] ∧
    (run cfg (run_instance_start n okInit)
      [Event.lookup_done (okLookup 0), Event.ctl okCtl]).launched = [] ∧
    (run cfg (run_instance_start n okInit)
      [Event.lookup_done (okLookup 0), Event.ctl okCtl]).inflight = [] := by
  simp [run, step, run_instance_start, okInit, State.zero, lookup_cb, okLookup,
    run_instance_step, okCtl]

theorem launched_facts (cfg : g) (hp : cfg.serialsend = false) (hk : 1 ≤ cfg.count)
    (hmax : cfg.count ≤ INT_MAX) (n : Int) :
    (reached cfg n okInit (launch_schedule cfg.count.toNat)).pc = Pc.send_loop ∧
    (reached cfg n okInit (launch_schedule cfg.count.toNat)).exit = none ∧
    (reached cfg n okInit (launch_schedule cfg.count.toNat)).lcv = cfg.count ∧
    (reached cfg n okInit (launch_schedule cfg.count.toNat)).nsent = 0 ∧
    (reached cfg n okInit (launch_schedule cfg.count.toNat)).signalled = [] ∧
    (reached cfg n okInit (launch_schedule cfg.count.toNat)).launched =
      (List.range cfg.count.toNat).map (fun i : Nat => (i : Int) + 1) ∧
    (reached cfg n okInit (launch_schedule cfg.count.toNat)).inflight =
      ((List.range cfg.count.toNat).map (fun i : Nat => (i : Int))).reverse := by
  obtain ⟨r1, r2, r3, r4, r5, r6, r7⟩ := resolved_facts cfg n
  have hcast : ((cfg.count.toNat : Nat) : Int) = cfg.count := Int.toNat_of_nonneg (by omega)
  have := launch_all cfg hp hmax _ r1 r2 r3 cfg.count.toNat (by omega)
  simp only [reached, launch_schedule, run_append]
  rw [r4, r5, r6, r7, hcast] at this
  simpa using this

theorem reached_append (cfg : g) (n : Int) (e : InitEnv) (a b : List Event) :
    reached cfg n e (a ++ b) = run cfg (reached cfg n e a) b :=
  run_append cfg _ a b

theorem waiting_facts (cfg : g) (hp : cfg.serialsend = false) (hk : 1 ≤ cfg.count)
    (hmax : cfg.count ≤ INT_MAX) (n : Int) :
    (reached cfg n okInit (launch_schedule cfg.count.toNat ++ [Event.ctl okCtl])).pc
      = Pc.final_wait ∧
    (reached cfg n okInit (launch_schedule cfg.count.toNat ++ [Event.ctl okCtl])).exit
      = none ∧
    (reached cfg n okInit (launch_schedule cfg.count.toNat ++ [Event.ctl okCtl])).nsent
      = 0 ∧
    (reached cfg n okInit (launch_schedule cfg.count.toNat ++ [Event.ctl okCtl])).inflight =
      ((List.range cfg.count.toNat).map (fun i : Nat => (i : Int))).reverse := by
  obtain ⟨l1, l2, l3, l4, -, -, l7⟩ := launched_facts cfg hp hk hmax n
  rw [reached_append]
  generalize reached cfg n okInit (launch_schedule cfg.count.toNat) = r at l1 l2 l3 l4 l7
  simp [run, step, l2, run_instance_step, l1, l3, l4, l7]

theorem completions_counted (cfg : g) (hp : cfg.serialsend = false) (hk : 1 ≤ cfg.count)
    (hmax : cfg.count ≤ INT_MAX) (n : Int) (cs : List ForwardDone)
    (hok : ∀ c ∈ cs, c.ok) (hnd : (cs.map (fun c => c.handle)).Nodup)
    (hmem : ∀ c ∈ cs, c.handle ∈ (List.range cfg.count.toNat).map (fun i : Nat => (i : Int))) :
    (reached cfg n okInit
      (launch_schedule cfg.count.toNat ++ [Event.ctl okCtl] ++ cs.map Event.forw_done)).nsent
      = cs.length ∧
    (reached cfg n okInit
      (launch_schedule cfg.count.toNat ++ [Event.ctl okCtl] ++ cs.map Event.forw_done)).exit
      = none ∧
    (reached cfg n okInit
      (launch_schedule cfg.count.toNat ++ [Event.ctl okCtl] ++ cs.map Event.forw_done)).pc
      = Pc.final_wait := by
  obtain ⟨w1, w2, w3, w4⟩ := waiting_facts cfg hp hk hmax n
  have hlen : cs.length ≤ cfg.count.toNat := by
    have hsub : cs.map (fun c => c.handle) ⊆
        (List.range cfg.count.toNat).map (fun i : Nat => (i : Int)) := by
      intro h hh
      obtain ⟨c, hc, rfl⟩ := List.mem_map.mp hh
      exact hmem c hc
    have := (hnd.subperm hsub).length_le
    simpa using this
  have hcast : ((cfg.count.toNat : Nat) : Int) = cfg.count := Int.toNat_of_nonneg (by omega)
  have hmax' : cfg.count ≤ 2147483647 := hmax
  rw [reached_append]
  have := complete_all cfg cs _ hok hnd
    (fun c hc => by rw [w4]; exact List.mem_reverse.mpr (hmem c hc)) w2
    (by rw [w3]; decide) (by rw [w3]; simp only [INT_MAX]; omega)
  rw [w3, w1] at this
  obtain ⟨a1, a2, a3, -⟩ := this
  exact ⟨by rw [a1]; simp, a2, a3⟩

theorem inv_reached (cfg : g) (hk : 1 ≤ cfg.count) (hmax : cfg.count ≤ INT_MAX)
    (n : Int) (e : InitEnv) (evs : List Event) : Inv cfg (reached cfg n e evs) :=
  inv_reachable cfg hk hmax n e evs

/-- C3: without `SERIALSEND`, for every count `k ≥ 1` that a C `int` holds: `k` controller
steps launch all `k` calls while `nsent` is still 0 and no wait has been entered, the
controller is never in the per-call wait and is in the final wait only with all `k`
calls launched; and when the `k` completion callbacks then run in any order (any
permutation `cs` of the launched calls), `nsent` ends as `k`, no callback before the last
signals, the last one (which raises `nsent` to `k`) signals, and the controller then
passes its final wait. -/
theorem parallel_order_independent (cfg : g) (hp : cfg.serialsend = false)
    (hk : 1 ≤ cfg.count) (hmax : cfg.count ≤ INT_MAX) (n : Int) (cs : List ForwardDone)
    (hok : ∀ c ∈ cs, c.ok)
    (hperm : (cs.map (fun c => c.handle)).Perm
      ((List.range cfg.count.toNat).map (fun i : Nat => (i : Int)))) :
    ((reached cfg n okInit (launch_schedule cfg.count.toNat)).launched.length : Int)
      = cfg.count ∧
    (reached cfg n okInit (launch_schedule cfg.count.toNat)).pc = Pc.send_loop ∧
    (reached cfg n okInit (launch_schedule cfg.count.toNat)).nsent = 0 ∧
    (reached cfg n okInit (launch_schedule cfg.count.toNat ++ [Event.ctl okCtl])).pc
      = Pc.final_wait ∧
    (∀ (e : InitEnv) (evs : List Event),
      (reached cfg n e evs).pc ≠ Pc.serial_wait ∧
      ((reached cfg n e evs).pc = Pc.final_wait →
        ((reached cfg n e evs).launched.length : Int) = cfg.count)) ∧
    (reached cfg n okInit
      (launch_schedule cfg.count.toNat ++ [Event.ctl okCtl] ++ cs.map Event.forw_done)).nsent
      = cfg.count ∧
    (reached cfg n okInit
      (launch_schedule cfg.count.toNat ++ [Event.ctl okCtl] ++
        cs.map Event.forw_done)).signalled = [cfg.count] ∧
    (∀ (cs1 : List ForwardDone) (c : ForwardDone), cs = cs1 ++ [c] →
      (reached cfg n okInit
        (launch_schedule cfg.count.toNat ++ [Event.ctl okCtl] ++
          cs1.map Event.forw_done)).signalled = []) ∧
    (reached cfg n okInit
      (launch_schedule cfg.count.toNat ++ [Event.ctl okCtl] ++ cs.map Event.forw_done ++
        [Event.ctl okCtl])).pc = Pc.sent := by
  have hcast : ((cfg.count.toNat : Nat) : Int) = cfg.count := Int.toNat_of_nonneg (by omega)
  obtain ⟨l1, l2, l3, l4, -, l6, -⟩ := launched_facts cfg hp hk hmax n
  obtain ⟨w1, -, -, -⟩ := waiting_facts cfg hp hk hmax n
  have hndr : ((List.range cfg.count.toNat).map (fun i : Nat => (i : Int))).Nodup :=
    (List.nodup_range _).map (fun a b h => by exact_mod_cast h)
  have hnd : (cs.map (fun c => c.handle)).Nodup := hperm.nodup_iff.mpr hndr
  have hmem : ∀ c ∈ cs, c.handle ∈ (List.range cfg.count.toNat).map (fun i : Nat => (i : Int)) :=
    fun c hc => hperm.mem_iff.mp (List.mem_map_of_mem _ hc)
  have hlen : cs.length = cfg.count.toNat := by
    have := hperm.length_eq
    simpa using this
  obtain ⟨c1, c2, c3⟩ := completions_counted cfg hp hk hmax n cs hok hnd hmem
  have hn : (reached cfg n okInit (launch_schedule cfg.count.toNat ++ [Event.ctl okCtl] ++
      cs.map Event.forw_done)).nsent = cfg.count := by rw [c1, hlen, hcast]
  refine ⟨by rw [l6]; simpa using hcast, l1, l4, w1, ?_, hn, ?_, ?_, ?_⟩
  · intro e evs
    have hinv := inv_reached cfg hk hmax n e evs
    obtain ⟨-, -, -, -, -, -, -, hser, hfin, -, -⟩ := hinv
    refine ⟨fun hpc => ?_, hfin⟩
    have := (hser hpc).1
    rw [hp] at this
    exact absurd this (by decide)
  · have hinv := inv_reached cfg hk hmax n okInit
      (launch_schedule cfg.count.toNat ++ [Event.ctl okCtl] ++ cs.map Event.forw_done)
    have hsig := hinv.2.2.2.2.2.2.2.2.2.2 hp
    rw [if_pos hn] at hsig
    exact hsig
  · intro cs1 c hcs
    have hok1 : ∀ c ∈ cs1, c.ok := fun c' hc' => hok c' (by rw [hcs]; simp [hc'])
    have hnd1 : (cs1.map (fun c => c.handle)).Nodup := by
      rw [hcs, List.map_append] at hnd
      exact (List.nodup_append.mp hnd).1
    have hmem1 : ∀ c ∈ cs1,
        c.handle ∈ (List.range cfg.count.toNat).map (fun i : Nat => (i : Int)) :=
      fun c' hc' => hmem c' (by rw [hcs]; simp [hc'])
    obtain ⟨d1, -, -⟩ := completions_counted cfg hp hk hmax n cs1 hok1 hnd1 hmem1
    have hinv := inv_reached cfg hk hmax n okInit
      (launch_schedule cfg.count.toNat ++ [Event.ctl okCtl] ++ cs1.map Event.forw_done)
    have hsig := hinv.2.2.2.2.2.2.2.2.2.2 hp
    have hl1 : cs.length = cs1.length + 1 := by rw [hcs]; simp
    have hne : ¬ (reached cfg n okInit (launch_schedule cfg.count.toNat ++ [Event.ctl okCtl] ++
        cs1.map Event.forw_done)).nsent = cfg.count := by
      rw [d1]
      omega
    rw [if_neg hne] at hsig
    exact hsig
  · rw [reached_append]
    generalize reached cfg n okInit (launch_schedule cfg.count.toNat ++ [Event.ctl okCtl] ++
      cs.map Event.forw_done) = r at hn c2 c3
    simp [run, step, c2, run_instance_step, c3, hn]

/-- C3 at the end-to-end scenario: count 3, the replies arrive in the order 2, 0, 1. -/
theorem parallel_order_independent_witness :
    (reached cfg_parallel3 0 okInit
      (launch_schedule 3 ++ [Event.ctl okCtl] ++
        [okDone 2, okDone 0, okDone 1].map Event.forw_done)).nsent = 3 ∧
    (reached cfg_parallel3 0 okInit
      (launch_schedule 3 ++ [Event.ctl okCtl] ++
        [okDone 2, okDone 0, okDone 1].map Event.forw_done)).signalled = [3] :=
  ⟨(parallel_order_independent cfg_parallel3 (by decide) (by decide) (by decide) 0
      [okDone 2, okDone 0, okDone 1] (by decide) (by decide)).2.2.2.2.2.1,
   (parallel_order_independent cfg_parallel3 (by decide) (by decide) (by decide) 0
      [okDone 2, okDone 0, okDone 1] (by decide) (by decide)).2.2.2.2.2.2.1⟩

end Client

namespace Server

theorem rpchandler_got (s : State) (h : HandlerCall) : (rpchandler s h).got = s.got := by
  unfold rpchandler
  cases h.np <;> simp only [] <;> split_ifs <;> rfl

theorem rpchandler_net_done (s : State) (h : HandlerCall) :
    (rpchandler s h).net_done = s.net_done := by
  unfold rpchandler
  cases h.np <;> simp only [] <;> split_ifs <;> rfl

theorem deliver_got (s : State) (o : Trigger) :
    (deliver s o.cb).got = s.got ∨
    (isReply o = true ∧ (deliver s o.cb).got = wrap32 (s.got + 1)) := by
  obtain ⟨cb, ret, actual⟩ := o
  cases cb with
  | none => left; rfl
  | some c =>
    cases c with
    | request h => left; exact rpchandler_got s h
    | respond cbi =>
      simp only [deliver, reply_sent_cb]
      split_ifs
      · left; rfl
      · right; exact ⟨rfl, rfl⟩

theorem deliver_net_done (s : State) (cb : Option Callback) :
    (deliver s cb).net_done = s.net_done := by
  cases cb with
  | none => rfl
  | some c =>
    cases c with
    | request h => exact rpchandler_net_done s h
    | respond cbi =>
      simp only [deliver, reply_sent_cb]
      split_ifs <;> rfl

theorem step_got (cfg : g) (hmax : cfg.count ≤ INT_MAX) (s : State) (o : Trigger)
    (h0 : 0 ≤ s.got) (hd : s.net_done = true → cfg.count ≤ s.got)
    (hb : s.got + (if isReply o = true then 1 else 0) ≤ cfg.count) :
    0 ≤ (run_network_step cfg s o).got ∧
    ((run_network_step cfg s o).net_done = true → cfg.count ≤ (run_network_step cfg s o).got) ∧
    (run_network_step cfg s o).got ≤ s.got + (if isReply o = true then 1 else 0) := by
  have hmax' : cfg.count ≤ 2147483647 := hmax
  obtain ⟨b, hbdef⟩ : ∃ b : Int, b = (if isReply o = true then 1 else 0) := ⟨_, rfl⟩
  rw [← hbdef] at hb ⊢
  have hb0 : 0 ≤ b := by rw [hbdef]; split_ifs <;> decide
  have hb1 : isReply o = true → b = 1 := fun h => by rw [hbdef, if_pos h]
  clear hbdef
  have hg := deliver_got { s with calls := s.calls ++ [Call.trigger 0 1] } o
  have hn := deliver_net_done { s with calls := s.calls ++ [Call.trigger 0 1] } o.cb
  simp only [] at hg hn
  unfold run_network_step
  simp only []
  generalize deliver { s with calls := s.calls ++ [Call.trigger 0 1] } o.cb = s1 at hg hn
  have hg' : 0 ≤ s1.got ∧ s1.got ≤ s.got + b := by
    rcases hg with hg | ⟨hr, hg⟩
    · rw [hg]; omega
    · have := hb1 hr
      have hw : wrap32 (s.got + 1) = s.got + 1 := by
        apply wrap32_eq <;> simp only [INT_MIN, INT_MAX] <;> omega
      rw [hg, hw]; omega
  split_ifs with hstop hx hcont hlt
  · exact ⟨h0, hd, by omega⟩
  all_goals
    have hnd : s.net_done = false := by
      simp only [not_or, Bool.not_eq_true] at hstop
      exact hstop.2
    try dsimp only
    refine ⟨hg'.1, ?_, hg'.2⟩
    first
      | (rw [hn, hnd]; intro hc; exact absurd hc (by decide))
      | (intro _; omega)

theorem count_replies_cons (o : Trigger) (tr : List Trigger) :
    (((o :: tr).filter isReply).length : Int) =
      (if isReply o = true then 1 else 0) + ((tr.filter isReply).length : Int) := by
  by_cases h : isReply o = true
  · simp [List.filter_cons, h]; omega
  · simp [List.filter_cons, h]

theorem net_got_bound (cfg : g) (hmax : cfg.count ≤ INT_MAX) :
    ∀ (tr : List Trigger) (s : State), 0 ≤ s.got →
      (s.net_done = true → cfg.count ≤ s.got) →
      s.got + ((tr.filter isReply).length : Int) ≤ cfg.count →
      0 ≤ (tr.foldl (run_network_step cfg) s).got ∧
      ((tr.foldl (run_network_step cfg) s).net_done = true →
        cfg.count ≤ (tr.foldl (run_network_step cfg) s).got) ∧
      (tr.foldl (run_network_step cfg) s).got ≤ s.got + ((tr.filter isReply).length : Int) := by
  intro tr
  induction tr with
  | nil => intro s h0 hd _; exact ⟨h0, hd, by simp⟩
  | cons o tr ih =>
    intro s h0 hd hb
    rw [count_replies_cons] at hb ⊢
    obtain ⟨a1, a2, a3⟩ := step_got cfg hmax s o h0 hd (by omega)
    obtain ⟨b1, b2, b3⟩ := ih (run_network_step cfg s o) a1 a2 (by omega)
    exact ⟨b1, b2, by simp only [List.foldl_cons]; omega⟩

theorem deliver_passes (s : State) (o : Trigger) (hp : passes o) (hx : s.exit = none) :
    (deliver s o.cb).exit = none ∧
    (deliver s o.cb).got = (if isReply o = true then wrap32 (s.got + 1) else s.got) ∧
    (deliver s o.cb).net_done = s.net_done := by
  obtain ⟨cb, ret, actual⟩ := o
  cases cb with
  | none => exact ⟨hx, rfl, rfl⟩
  | some c =>
    cases c with
    | request h =>
      obtain ⟨hgi_ok, np, get_input_ret, in_ret, respond_ret⟩ := h
      simp only [passes] at hp
      obtain ⟨p1, p2, p3, p4⟩ := hp
      cases np with
      | none => simp at p2
      | some v => simp [deliver, rpchandler, p1, p3, p4, hx, isReply]
    | respond cbi =>
      simp only [passes] at hp
      simp [deliver, reply_sent_cb, hp, hx, isReply]

theorem step_passes (cfg : g) (hmax : cfg.count ≤ INT_MAX) (s : State) (o : Trigger)
    (hp : passes o) (hx : s.exit = none) (hnd : s.net_done = false) (h0 : 0 ≤ s.got)
    (hb : s.got + (if isReply o = true then 1 else 0) ≤ cfg.count) :
    (run_network_step cfg s o).exit = none ∧
    (run_network_step cfg s o).got = s.got + (if isReply o = true then 1 else 0) ∧
    ((run_network_step cfg s o).net_done = true →
      cfg.count ≤ (run_network_step cfg s o).got) ∧
    (ends_drain o → cfg.count ≤ s.got → (run_network_step cfg s o).net_done = true) := by
  have hmax' : cfg.count ≤ 2147483647 := hmax
  obtain ⟨d1, d2, d3⟩ := deliver_passes { s with calls := s.calls ++ [Call.trigger 0 1] } o hp hx
  simp only [] at d2 d3
  have hgot : (deliver { s with calls := s.calls ++ [Call.trigger 0 1] } o.cb).got =
      s.got + (if isReply o = true then 1 else 0) := by
    rw [d2]
    split_ifs with hr
    · rw [if_pos hr] at hb
      apply wrap32_eq <;> simp only [INT_MIN, INT_MAX] <;> omega
    · simp
  unfold run_network_step
  simp only []
  generalize deliver { s with calls := s.calls ++ [Call.trigger 0 1] } o.cb = s1 at d1 d3 hgot
  have hstop : ¬ (s.exit.isSome = true ∨ s.net_done = true) := by simp [hx, hnd]
  have hx1 : ¬ s1.exit.isSome = true := by simp [d1]
  rw [if_neg hstop, if_neg hx1]
  obtain ⟨b, hbdef⟩ : ∃ b : Int, b = (if isReply o = true then 1 else 0) := ⟨_, rfl⟩
  rw [← hbdef] at hb hgot ⊢
  have hb0 : 0 ≤ b := by rw [hbdef]; split_ifs <;> decide
  have hcb : o.cb = none → b = 0 := by
    intro h
    rw [hbdef]
    obtain ⟨cb, ret, actual⟩ := o
    simp only [] at h
    subst h
    rfl
  clear hbdef
  split_ifs with h1 h2
  · refine ⟨d1, hgot, ?_, ?_⟩
    · rw [d3, hnd]; intro h; exact absurd h (by decide)
    · intro he; exact absurd h1 he.2
  · refine ⟨d1, hgot, ?_, ?_⟩
    · rw [d3, hnd]; intro h; exact absurd h (by decide)
    · intro he hc
      have := hcb he.1
      omega
  · refine ⟨d1, hgot, ?_, ?_⟩
    · intro _; dsimp only; omega
    · intro _ _; rfl

theorem net_exits (cfg : g) (hmax : cfg.count ≤ INT_MAX) (o_end : Trigger)
    (hend : ends_drain o_end) :
    ∀ (tr : List Trigger) (s : State), s.exit = none → 0 ≤ s.got →
      (s.net_done = true → s.got = cfg.count) →
      (s.net_done = false → s.got + ((tr.filter isReply).length : Int) = cfg.count) →
      (∀ o ∈ tr, passes o) →
      ((tr ++ [o_end]).foldl (run_network_step cfg) s).net_done = true ∧
      ((tr ++ [o_end]).foldl (run_network_step cfg) s).exit = none ∧
      ((tr ++ [o_end]).foldl (run_network_step cfg) s).got = cfg.count := by
  have hmax' : cfg.count ≤ 2147483647 := hmax
  have hpe : passes o_end := by
    obtain ⟨cb, ret, actual⟩ := o_end
    obtain ⟨he1, -⟩ := hend
    simp only [] at he1
    subst he1
    trivial
  have hre : isReply o_end = false := by
    obtain ⟨cb, ret, actual⟩ := o_end
    obtain ⟨he1, -⟩ := hend
    simp only [] at he1
    subst he1
    rfl
  intro tr
  induction tr with
  | nil =>
    intro s hx h0 hd hb _
    simp only [List.nil_append, List.foldl_cons, List.foldl_nil]
    by_cases hnd : s.net_done = true
    · have hst : run_network_step cfg s o_end = s := by simp [run_network_step, hnd]
      rw [hst]
      exact ⟨hnd, hx, hd hnd⟩
    · have hnd' : s.net_done = false := by simpa using hnd
      have hk := hb hnd'
      simp only [List.filter_nil, List.length_nil, Nat.cast_zero, add_zero] at hk
      obtain ⟨e1, e2, -, e4⟩ := step_passes cfg hmax s o_end hpe hx hnd' h0
        (by rw [hre]; simp; omega)
      refine ⟨e4 hend (by omega), e1, ?_⟩
      rw [e2, hre]
      simp [hk]
  | cons o tr ih =>
    intro s hx h0 hd hb hp
    simp only [List.cons_append, List.foldl_cons]
    by_cases hnd : s.net_done = true
    · have hst : run_network_step cfg s o = s := by simp [run_network_step, hnd]
      rw [hst]
      exact ih s hx h0 hd (fun h => by rw [hnd] at h; exact absurd h (by decide))
        (fun o' ho' => hp o' (List.mem_cons_of_mem _ ho'))
    · have hnd' : s.net_done = false := by simpa using hnd
      have hb' := hb hnd'
      rw [count_replies_cons] at hb'
      have hnn : (0 : Int) ≤ ((tr.filter isReply).length : Int) := Int.natCast_nonneg _
      obtain ⟨e1, e2, e3, -⟩ := step_passes cfg hmax s o (hp o (List.mem_cons_self _ _)) hx
        hnd' h0 (by omega)
      have hb0 : (0 : Int) ≤ (if isReply o = true then 1 else 0) := by split_ifs <;> decide
      apply ih _ e1 (by rw [e2]; omega)
      · intro h
        have := e3 h
        rw [e2] at this ⊢
        omega
      · intro _
        rw [e2]
        omega
      · exact fun o' ho' => hp o' (List.mem_cons_of_mem _ ho')

/-- C4, as stated, fails: with count 1, when Mercury delivers two reply completions
within one drain, `run_network` leaves its loop with `got = 2`, which exceeds the count. -/
theorem server_got_overshoots :
    (run_network { count := 1 } (State.zero 0) [okReply, okReply, idle]).net_done = true ∧
    (run_network { count := 1 } (State.zero 0) [okReply, okReply, idle]).got = 2 ∧
    ¬ (run_network { count := 1 } (State.zero 0) [okReply, okReply, idle]).got ≤ 1 := by
  decide

/-- C4, amended: for every count `k ≥ 1` that a C `int` holds and every sequence of trigger
calls in which at most `k` reply completions are delivered, `got` stays between 0 and `k`
and is exactly `k` once `run_network` has left its loop; and `run_network` does leave its
loop, with `got = k`, when exactly `k` reply completions are delivered, no callback ends
the process, and a trigger call then ends the drain. -/
theorem server_got_exact_when_matched (cfg : g) (hk : 1 ≤ cfg.count)
    (hmax : cfg.count ≤ INT_MAX) (n : Int) (tr : List Trigger)
    (hrep : ((tr.filter isReply).length : Int) ≤ cfg.count) :
    0 ≤ (run_network cfg (State.zero n) tr).got ∧
    (run_network cfg (State.zero n) tr).got ≤ cfg.count ∧
    ((run_network cfg (State.zero n) tr).net_done = true →
      (run_network cfg (State.zero n) tr).got = cfg.count) ∧
    (∀ o_end : Trigger, (∀ o ∈ tr, passes o) →
      ((tr.filter isReply).length : Int) = cfg.count → ends_drain o_end →
      (run_network cfg (State.zero n) (tr ++ [o_end])).net_done = true ∧
      (run_network cfg (State.zero n) (tr ++ [o_end])).exit = none ∧
      (run_network cfg (State.zero n) (tr ++ [o_end])).got = cfg.count) := by
  have hpos : (0 : Int) < cfg.count := by omega
  have hstart : run_network_start cfg (State.zero n) = State.zero n := by
    simp [run_network_start, hpos, State.zero]
  unfold run_network
  rw [hstart]
  obtain ⟨b1, b2, b3⟩ := net_got_bound cfg hmax tr (State.zero n) (le_refl _)
    (fun h => by simp [State.zero] at h) (by simpa [State.zero] using hrep)
  simp only [State.zero, zero_add] at b1 b2 b3
  refine ⟨b1, by simp only [State.zero]; omega, fun h => ?_, ?_⟩
  · have := b2 h
    simp only [State.zero]
    omega
  · intro o_end hp hlen hend
    exact net_exits cfg hmax o_end hend tr (State.zero n) rfl (le_refl _)
      (fun h => by simp [State.zero] at h) (fun _ => by simpa [State.zero] using hlen) hp

/-- C4, amended, at the end-to-end scenario: count 3 and three delivered replies. -/
theorem server_got_exact_when_matched_witness :
    (run_network { count := 3 } (State.zero 0) trace3).net_done = true ∧
    (run_network { count := 3 } (State.zero 0) trace3).got = 3 :=
  ⟨by decide,
   (server_got_exact_when_matched { count := 3 } (by decide) (by decide) 0 trace3
      (by decide)).2.2.1 (by decide)⟩

/-- C5, as stated, fails at the smallest 32-bit value: the input `-2147483648` is a
signed 32-bit value, its negation is not, and the payload the product `in.ret * -1`
leaves in the 32-bit field is `-2147483648` itself. -/
theorem reply_not_negation_at_int_min :
    isInt32 (-2147483648) ∧
    out_ret (-2147483648) = -2147483648 ∧
    out_ret (-2147483648) ≠ -(-2147483648) ∧
    ¬ isInt32 (-(-2147483648)) := by
  decide

/-- C5, amended: for every signed 32-bit input `v`, whatever the instance index, the
receive-counter and the earlier replies are, a call of `rpchandler` that returns hands
`HG_Respond` the payload `out_ret v`, the product `in.ret * -1` in 32 bits; this payload
is the negation of `v` for every `v` other than `-2147483648`, it is a signed 32-bit
value, and the transform applied twice gives `v` back.  The inputs 1, 2, 3 of the client
are answered with -1, -2, -3. -/
theorem reply_is_negation (v : Int) (hlo : INT_MIN ≤ v) (hhi : v ≤ INT_MAX) (s : State)
    (h : HandlerCall) (hin : h.in_ret = v) (hret : (rpchandler s h).exit = none) :
    (rpchandler s h).replied = s.replied ++ [out_ret v] ∧
    (v ≠ INT_MIN → out_ret v = -v) ∧
    isInt32 (out_ret v) ∧
    out_ret (out_ret v) = v ∧
    (Client.reached Client.cfg_parallel3 0 Client.okInit (Client.launch_schedule 3)).launched
      = [1, 2, 3] ∧
    (run_network { count := 3 } (State.zero 0) trace3).replied = [-1, -2, -3] := by
  simp only [INT_MIN, INT_MAX] at hlo hhi
  refine ⟨?_, ?_, ?_, ?_, by decide, by decide⟩
  · obtain ⟨hgi_ok, np, get_input_ret, in_ret, respond_ret⟩ := h
    simp only [] at hin
    subst hin
    unfold rpchandler at hret ⊢
    cases np with
    | none =>
      simp only [] at hret
      split_ifs at hret <;> simp [State.errx] at hret
    | some m =>
      simp only [] at hret ⊢
      split_ifs at hret ⊢
      · simp [State.errx] at hret
      · simp [State.errx] at hret
      · simp [State.errx] at hret
      · rfl
  · intro hne
    simp only [INT_MIN] at hne
    unfold out_ret wrap32
    omega
  · unfold isInt32 INT_MIN INT_MAX out_ret wrap32
    omega
  · unfold out_ret wrap32
    omega

/-- C5, amended, at the input 2 of the end-to-end scenario. -/
theorem reply_is_negation_witness :
    (rpchandler (State.zero 0)
      { hgi_ok := true, np := some 0, get_input_ret := HG_SUCCESS, in_ret := 2,
        respond_ret := HG_SUCCESS }).replied = [] ++ [out_ret 2] ∧
    out_ret 2 = -2 :=
  ⟨(reply_is_negation 2 (by decide) (by decide) (State.zero 0)
      { hgi_ok := true, np := some 0, get_input_ret := HG_SUCCESS, in_ret := 2,
        respond_ret := HG_SUCCESS } rfl (by decide)).1,
   (reply_is_negation 2 (by decide) (by decide) (State.zero 0)
      { hgi_ok := true, np := some 0, get_input_ret := HG_SUCCESS, in_ret := 2,
        respond_ret := HG_SUCCESS } rfl (by decide)).2.1 (by decide)⟩

/-- C6, what the code does: `rpchandler` leaves `got` unchanged, and `reply_sent_cb`
adds one to `got` for every completion of type `HG_CB_RESPOND` without reading its
status `ret`; a reply completion that reports failure code 6 is counted like a delivered
one, the process goes on, and with count 1 the network loop ends on it. -/
theorem reply_sent_cb_counts_failed_reply :
    (∀ (s : State) (h : HandlerCall), (rpchandler s h).got = s.got) ∧
    (∀ (s : State) (ret : hg_return_t) (addr : Option Nat),
      (reply_sent_cb s { ret := ret, type := HG_CB_RESPOND, addr := addr }).got
        = wrap32 (s.got + 1) ∧
      (reply_sent_cb s { ret := ret, type := HG_CB_RESPOND, addr := addr }).exit = s.exit) ∧
    (reply_sent_cb (State.zero 0)
      { ret := HG_FAIL 6, type := HG_CB_RESPOND, addr := none }).got = 1 ∧
    (reply_sent_cb (State.zero 0)
      { ret := HG_FAIL 6, type := HG_CB_RESPOND, addr := none }).exit = none ∧
    (run_network { count := 1 } (State.zero 0) [failedReply 6, idle]).got = 1 ∧
    (run_network { count := 1 } (State.zero 0) [failedReply 6, idle]).net_done = true ∧
    (run_network { count := 1 } (State.zero 0) [failedReply 6, idle]).exit = none := by
  refine ⟨rpchandler_got, fun s ret addr => ?_, by decide, by decide, by decide, by decide,
    by decide⟩
  simp [reply_sent_cb]

end Server

namespace Client

theorem step_exit_status (cfg : g) (s : State) (ev : Event)
    (h : ∀ x, s.exit = some x → x.status = 1) :
    ∀ x, (step cfg s ev).exit = some x → x.status = 1 := by
  by_cases hx : s.exit.isSome = true
  · have hst : step cfg s ev = s := by simp [step, hx]
    rw [hst]
    exact h
  · have hxn : s.exit = none := by simpa using hx
    intro x
    cases ev with
    | ctl e =>
      simp only [step, hx, if_false, Bool.false_eq_true]
      unfold run_instance_step
      split <;> (try split_ifs) <;> simp [State.errx, SndRcv.errx, hxn] <;>
        (intro hh; rw [← hh])
    | lookup_done cbi =>
      simp only [step, hx, if_false, Bool.false_eq_true, lookup_cb]
      split_ifs <;> simp [hxn]
    | forw_done c =>
      simp only [step, hx, if_false, Bool.false_eq_true, forw_cb]
      split_ifs <;> simp [State.errx, SndRcv.errx, hxn] <;> (intro hh; rw [← hh])

theorem reached_exit_status (cfg : g) (n : Int) (ie : InitEnv) (evs : List Event) :
    ∀ x, (reached cfg n ie evs).exit = some x → x.status = 1 := by
  induction evs using List.reverseRecOn with
  | nil =>
    intro x
    simp only [reached, run, List.foldl_nil, run_instance_start]
    split_ifs <;> simp [State.errx, State.zero, SndRcv.errx] <;> (intro hh; rw [← hh])
  | append_singleton evs ev ih =>
    have : reached cfg n ie (evs ++ [ev]) = step cfg (reached cfg n ie evs) ev :=
      run_snoc cfg _ evs ev
    rw [this]
    exact step_exit_status cfg _ ev ih

theorem join_loop_spec (env : MainEnv) (total : Nat) :
    ∀ (todo lcv : Nat),
      (join_loop env total todo lcv).created = total ∧
      ∀ x, (join_loop env total todo lcv).exit = some x →
        x.status = 1 ∨
        (x.status = 0 ∧ (join_loop env total todo lcv).joined = lcv + todo ∧
          ∀ j, j < todo → (instance_final env (lcv + j)).exit = none ∧
            (instance_final env (lcv + j)).pc = Pc.sent) := by
  intro todo
  induction todo with
  | zero =>
    intro lcv
    refine ⟨rfl, fun x hx => Or.inr ?_⟩
    simp only [join_loop, Option.some.injEq] at hx
    subst hx
    exact ⟨rfl, rfl, fun j hj => absurd hj (Nat.not_lt_zero _)⟩
  | succ todo ih =>
    intro lcv
    unfold join_loop
    simp only []
    cases hfin : (instance_final env lcv).exit with
    | some e =>
      refine ⟨rfl, fun x hx => Or.inl ?_⟩
      simp only [Option.some.injEq] at hx
      subst hx
      exact reached_exit_status (main_g env) lcv (env.inst_env lcv) (env.inst_sched lcv) _ hfin
    | none =>
      simp only []
      by_cases hpc : (instance_final env lcv).pc = Pc.sent
      · rw [if_pos hpc]
        obtain ⟨i1, i2⟩ := ih (lcv + 1)
        refine ⟨i1, fun x hx => ?_⟩
        rcases i2 x hx with h1 | ⟨h0, hj, hall⟩
        · exact Or.inl h1
        · refine Or.inr ⟨h0, by omega, fun j hj' => ?_⟩
          cases j with
          | zero => exact ⟨hfin, hpc⟩
          | succ j =>
            have := hall j (by omega)
            rw [show lcv + 1 + j = lcv + (j + 1) by omega] at this
            exact this
      · rw [if_neg hpc]
        exact ⟨rfl, fun x hx => by simp at hx⟩

theorem main_spec (env : MainEnv) :
    (env.argc ≠ 4 →
      (main env).exit =
        some (SndRcv.errx 0 "usage: %s n-instances local-addr-spec remote-addr-spec\n") ∧
      (main env).created = 0 ∧ (main env).joined = 0) ∧
    (env.argc = 4 → ∀ x, (main env).exit = some x →
      x.status = 1 ∨
      (x.status = 0 ∧ (main env).created = env.ninst.toNat ∧
        (main env).joined = env.ninst.toNat ∧
        ∀ j, j < env.ninst.toNat → (instance_final env j).exit = none ∧
          (instance_final env j).pc = Pc.sent)) := by
  constructor
  · intro h
    simp [main, h]
  · intro h x hx
    unfold main at hx ⊢
    simp only [h, ne_eq, not_true_eq_false, if_false] at hx ⊢
    split_ifs at hx ⊢ with h1 h2
    · left; simp only [Option.some.injEq] at hx; subst hx; rfl
    · left; simp only [Option.some.injEq] at hx; subst hx; rfl
    · cases hc : create_loop env env.ninst.toNat 0 with
      | some lcv =>
        rw [hc] at hx
        left; simp only [Option.some.injEq] at hx; subst hx; rfl
      | none =>
        rw [hc] at hx
        simp only [] at hx ⊢
        obtain ⟨j1, j2⟩ := join_loop_spec env env.ninst.toNat env.ninst.toNat 0
        rcases j2 x hx with a | ⟨a, b, c⟩
        · exact Or.inl a
        · refine Or.inr ⟨a, j1, by omega, fun j hj => ?_⟩
          have := c j hj
          rw [Nat.zero_add] at this
          exact this

end Client

namespace Server

theorem deliver_exit_status (s : State) (cb : Option Callback) (hx : s.exit = none) :
    ∀ x, (deliver s cb).exit = some x → x.status = 1 := by
  intro x
  cases cb with
  | none => simp [deliver, hx]
  | some c =>
    cases c with
    | request h =>
      simp only [deliver, rpchandler]
      cases h.np <;> simp only [] <;> split_ifs <;>
        simp [State.errx, SndRcv.errx, hx] <;> (intro hh; rw [← hh])
    | respond cbi =>
      simp only [deliver, reply_sent_cb]
      split_ifs
      · simp only [State.errx, SndRcv.errx, Option.some.injEq]
        intro hh
        rw [← hh]
      · simp [hx]

theorem net_step_exit_status (cfg : g) (s : State) (o : Trigger)
    (h : ∀ x, s.exit = some x → x.status = 1) :
    ∀ x, (run_network_step cfg s o).exit = some x → x.status = 1 := by
  by_cases hx : s.exit.isSome = true
  · have hst : run_network_step cfg s o = s := by simp [run_network_step, hx]
    rw [hst]
    exact h
  · have hxn : s.exit = none := by simpa using hx
    have hd := deliver_exit_status { s with calls := s.calls ++ [Call.trigger 0 1] } o.cb hxn
    unfold run_network_step
    simp only []
    generalize deliver { s with calls := s.calls ++ [Call.trigger 0 1] } o.cb = s1 at hd
    split_ifs
    · exact h
    · exact hd
    · exact hd
    · exact hd
    · exact hd

theorem net_fold_exit_status (cfg : g) (tr : List Trigger) :
    ∀ s : State, (∀ x, s.exit = some x → x.status = 1) →
      ∀ x, (tr.foldl (run_network_step cfg) s).exit = some x → x.status = 1 := by
  induction tr with
  | nil => intro s h; exact h
  | cons o tr ih =>
    intro s h
    exact ih _ (net_step_exit_status cfg s o h)

theorem run_instance_exit_status (cfg : g) (n : Int) (ie : InitEnv) (tr : List Trigger) :
    ∀ x, (run_instance cfg n ie tr).exit = some x → x.status = 1 := by
  unfold run_instance
  simp only []
  split_ifs
  · intro x hx; simp [State.errx, SndRcv.errx] at hx; rw [← hx]
  · intro x hx; simp [State.errx, SndRcv.errx] at hx; rw [← hx]
  · intro x hx; simp [State.errx, SndRcv.errx] at hx; rw [← hx]
  · intro x hx; simp [State.errx, SndRcv.errx] at hx; rw [← hx]
  · apply net_fold_exit_status
    intro x hx
    unfold run_network_start at hx
    split_ifs at hx <;> simp [State.zero] at hx

theorem server_join_loop_spec (env : MainEnv) (total : Nat) :
    ∀ (todo lcv : Nat),
      (join_loop env total todo lcv).created = total ∧
      ∀ x, (join_loop env total todo lcv).exit = some x →
        x.status = 1 ∨
        (x.status = 0 ∧ (join_loop env total todo lcv).joined = lcv + todo ∧
          ∀ j, j < todo → (instance_final env (lcv + j)).exit = none ∧
            (instance_final env (lcv + j)).net_done = true) := by
  intro todo
  induction todo with
  | zero =>
    intro lcv
    refine ⟨rfl, fun x hx => Or.inr ?_⟩
    simp only [join_loop, Option.some.injEq] at hx
    subst hx
    exact ⟨rfl, rfl, fun j hj => absurd hj (Nat.not_lt_zero _)⟩
  | succ todo ih =>
    intro lcv
    unfold join_loop
    simp only []
    cases hfin : (instance_final env lcv).exit with
    | some e =>
      refine ⟨rfl, fun x hx => Or.inl ?_⟩
      simp only [Option.some.injEq] at hx
      subst hx
      exact run_instance_exit_status (main_g env) lcv (env.inst_env lcv) (env.inst_trace lcv)
        _ hfin
    | none =>
      simp only []
      by_cases hpc : (instance_final env lcv).net_done = true
      · rw [if_pos hpc]
        obtain ⟨i1, i2⟩ := ih (lcv + 1)
        refine ⟨i1, fun x hx => ?_⟩
        rcases i2 x hx with h1 | ⟨h0, hj, hall⟩
        · exact Or.inl h1
        · refine Or.inr ⟨h0, by omega, fun j hj' => ?_⟩
          cases j with
          | zero => exact ⟨hfin, hpc⟩
          | succ j =>
            have := hall j (by omega)
            rw [show lcv + 1 + j = lcv + (j + 1) by omega] at this
            exact this
      · rw [if_neg hpc]
        exact ⟨rfl, fun x hx => by simp at hx⟩

theorem server_main_spec (env : MainEnv) :
    (env.argc ≠ 3 →
      (main env).exit = some (SndRcv.errx 0 "usage: %s n-instances local-addr-spec") ∧
      (main env).created = 0 ∧ (main env).joined = 0) ∧
    (env.argc = 3 → ∀ x, (main env).exit = some x →
      x.status = 1 ∨
      (x.status = 0 ∧ (main env).created = env.n.toNat ∧
        (main env).joined = env.n.toNat ∧
        ∀ j, j < env.n.toNat → (instance_final env j).exit = none ∧
          (instance_final env j).net_done = true)) := by
  constructor
  · intro h
    simp [main, h]
  · intro h x hx
    unfold main at hx ⊢
    simp only [h, ne_eq, not_true_eq_false, if_false] at hx ⊢
    split_ifs at hx ⊢ with h1 h2
    · left; simp only [Option.some.injEq] at hx; subst hx; rfl
    · left; simp only [Option.some.injEq] at hx; subst hx; rfl
    · cases hc : create_loop env env.n.toNat 0 with
      | some lcv =>
        rw [hc] at hx
        left; simp only [Option.some.injEq] at hx; subst hx; rfl
      | none =>
        rw [hc] at hx
        simp only [] at hx ⊢
        obtain ⟨j1, j2⟩ := server_join_loop_spec env env.n.toNat env.n.toNat 0
        rcases j2 x hx with a | ⟨a, b, c⟩
        · exact Or.inl a
        · refine Or.inr ⟨a, j1, by omega, fun j hj => ?_⟩
          have := c j hj
          rw [Nat.zero_add] at this
          exact this

end Server

/-- C9 at the failing input, an invalid command line: started with `argc = 1`, the client
and the server both end through `errx(0, "usage: ...")`, with exit status 0 and before
any instance thread exists. -/
theorem usage_exit_status_zero :
    (Client.main Client.no_args).exit =
      some (errx 0 "usage: %s n-instances local-addr-spec remote-addr-spec\n") ∧
    (Client.main Client.no_args).created = 0 ∧
    (Server.main Server.no_args).exit =
      some (errx 0 "usage: %s n-instances local-addr-spec") ∧
    (Server.main Server.no_args).created = 0 := by
  decide

/-- Exit statuses on all paths of both programs: whenever an instance of the client or of
the server ends the process (initialization, lookup, call submission, completion or
handler-context failure) the exit status is 1.  `main` of either program, started with
the right number of arguments, ends with status 1 or with status 0, and with status 0
only after it created and joined all instance threads, each of which finished without
ending the process.  Started with a wrong number of arguments, `main` ends with status 0
through the usage message, before it creates a thread. -/
theorem failure_exit_status (cenv : Client.MainEnv) (senv : Server.MainEnv) :
    (∀ (cfg : Client.g) (n : Int) (ie : Client.InitEnv) (evs : List Client.Event)
      (x : ProcExit), (Client.reached cfg n ie evs).exit = some x → x.status = 1) ∧
    (∀ (cfg : Server.g) (n : Int) (ie : Server.InitEnv) (tr : List Server.Trigger)
      (x : ProcExit), (Server.run_instance cfg n ie tr).exit = some x → x.status = 1) ∧
    (cenv.argc = 4 → ∀ x, (Client.main cenv).exit = some x →
      x.status = 1 ∨
      (x.status = 0 ∧ (Client.main cenv).created = cenv.ninst.toNat ∧
        (Client.main cenv).joined = cenv.ninst.toNat ∧
        ∀ j, j < cenv.ninst.toNat → (Client.instance_final cenv j).exit = none ∧
          (Client.instance_final cenv j).pc = Client.Pc.sent)) ∧
    (senv.argc = 3 → ∀ x, (Server.main senv).exit = some x →
      x.status = 1 ∨
      (x.status = 0 ∧ (Server.main senv).created = senv.n.toNat ∧
        (Server.main senv).joined = senv.n.toNat ∧
        ∀ j, j < senv.n.toNat → (Server.instance_final senv j).exit = none ∧
          (Server.instance_final senv j).net_done = true)) ∧
    (cenv.argc ≠ 4 →
      (Client.main cenv).exit =
        some (errx 0 "usage: %s n-instances local-addr-spec remote-addr-spec\n") ∧
      (Client.main cenv).created = 0 ∧ (Client.main cenv).joined = 0) ∧
    (senv.argc ≠ 3 →
      (Server.main senv).exit = some (errx 0 "usage: %s n-instances local-addr-spec") ∧
      (Server.main senv).created = 0 ∧ (Server.main senv).joined = 0) ∧
    (Client.main Client.one_instance).exit = some (exit 0) ∧
    (Client.main Client.one_instance).joined = 1 ∧
    (Server.main Server.one_instance).exit = some (exit 0) ∧
    (Server.main Server.one_instance).joined = 1 :=
  ⟨Client.reached_exit_status, Server.run_instance_exit_status,
   (Client.main_spec cenv).2, (Server.server_main_spec senv).2,
   (Client.main_spec cenv).1, (Server.server_main_spec senv).1,
   by decide, by decide, by decide, by decide⟩

/-- C10, as stated, fails for instance counts near the top of the `int` range: with
`n-instances` 2147483647 the sum `g.ninst+n+BASEPORT` of instance 0 leaves the range of
an `int`, and the value printed as local port is not `19900 + N + i`. -/
theorem local_port_overflows :
    isInt32 2147483647 ∧
    Client.myid_port (Client.cfg_instances 2147483647) 0
      = -2147463749 ∧
    Client.myid_port (Client.cfg_instances 2147483647) 0
      ≠ 19900 + 2147483647 + 0 := by
  decide

/-- C10, amended: with base port 19900, for every instance count `N ≥ 1` and all instance
indices `i`, `j` below `N` for which `19900 + N + i` and `19900 + N + j` fit an `int`:
server instance `i` listens on `19900 + i`, client instance `i` contacts that same port
and uses the local port `19900 + N + i`; no client local port equals a server port, and
distinct instances get distinct server ports and distinct local ports.  For `N = 1` the
remote port is 19900 and the local port 19901; for `N = 2` the remote ports are 19900,
19901 and the local ports 19902, 19903. -/
theorem ports_distinct (cfg : Client.g) (i j : Int) (_hN : 1 ≤ cfg.ninst)
    (hi : 0 ≤ i) (hiN : i < cfg.ninst) (hj : 0 ≤ j) (hjN : j < cfg.ninst)
    (hfi : BASEPORT + cfg.ninst + i ≤ INT_MAX) (hfj : BASEPORT + cfg.ninst + j ≤ INT_MAX) :
    Server.myid_port i = 19900 + i ∧
    Client.remoteid_port i = 19900 + i ∧
    Client.remoteid_port i = Server.myid_port i ∧
    Client.myid_port cfg i = 19900 + cfg.ninst + i ∧
    Client.myid_port cfg i ≠ Server.myid_port j ∧
    (i ≠ j → Server.myid_port i ≠ Server.myid_port j ∧
      Client.myid_port cfg i ≠ Client.myid_port cfg j) ∧
    (Client.remoteid_port 0 = 19900 ∧
      Client.myid_port (Client.cfg_instances 1) 0
        = 19901) ∧
    ([0, 1].map Client.remoteid_port = [19900, 19901] ∧
      [0, 1].map (Client.myid_port (Client.cfg_instances 2)) = [19902, 19903]) := by
  simp only [BASEPORT, INT_MAX] at hfi hfj
  have s1 : ∀ k : Int, 0 ≤ k → k < cfg.ninst → BASEPORT + cfg.ninst + k ≤ INT_MAX →
      Server.myid_port k = 19900 + k := by
    intro k h1 h2 h3
    simp only [BASEPORT, INT_MAX] at h3
    unfold Server.myid_port BASEPORT wrap32
    omega
  have s2 : ∀ k : Int, 0 ≤ k → k < cfg.ninst → BASEPORT + cfg.ninst + k ≤ INT_MAX →
      Client.myid_port cfg k = 19900 + cfg.ninst + k := by
    intro k h1 h2 h3
    simp only [BASEPORT, INT_MAX] at h3
    unfold Client.myid_port BASEPORT wrap32
    omega
  have s3 : Client.remoteid_port i = Server.myid_port i := rfl
  refine ⟨s1 i hi hiN hfi, by rw [s3]; exact s1 i hi hiN hfi, s3, s2 i hi hiN hfi, ?_, ?_,
    by decide, by decide⟩
  · rw [s2 i hi hiN hfi, s1 j hj hjN hfj]
    omega
  · intro hne
    rw [s1 i hi hiN hfi, s1 j hj hjN hfj, s2 i hi hiN hfi, s2 j hj hjN hfj]
    exact ⟨by omega, by omega⟩

/-- C10, amended, at two instances: indices 0 and 1. -/
theorem ports_distinct_witness :
    Client.myid_port (Client.cfg_instances 2) 0
      = 19900 + 2 + 0 ∧
    Client.myid_port (Client.cfg_instances 2) 0
      ≠ Server.myid_port 1 :=
  ⟨(ports_distinct (Client.cfg_instances 2) 0 1
      (by decide) (by decide) (by decide) (by decide) (by decide) (by decide)
      (by decide)).2.2.2.1,
   (ports_distinct (Client.cfg_instances 2) 0 1
      (by decide) (by decide) (by decide) (by decide) (by decide) (by decide)
      (by decide)).2.2.2.2.1⟩

theorem wrap32_range (x : Int) : INT_MIN ≤ wrap32 x ∧ wrap32 x ≤ INT_MAX := by
  unfold wrap32 INT_MIN INT_MAX
  omega

theorem atoi_range (s : List Char) : INT_MIN ≤ atoi s ∧ atoi s ≤ INT_MAX :=
  wrap32_range _

theorem saturate_long_eq (x : Int) (h1 : LONG_MIN ≤ x) (h2 : x ≤ LONG_MAX) :
    saturate_long x = x := by
  unfold saturate_long
  split_ifs <;> omega

theorem digits_value_stop (acc : Nat) (cs : List Char) (h : starts_with_digit cs = false) :
    digits_value acc cs = acc := by
  cases cs with
  | nil => rfl
  | cons c cs =>
    simp only [starts_with_digit] at h
    simp [digits_value, h]

theorem strtol_non_numeric (s : List Char) (h : numeric s = false) : strtol s = 0 := by
  have hz : saturate_long 0 = 0 := by decide
  unfold numeric at h
  unfold strtol
  cases hs : skip_space s with
  | nil => rfl
  | cons c cs =>
    rw [hs] at h
    simp only [] at h ⊢
    by_cases h1 : c.toNat = 45
    · have hd : starts_with_digit cs = false := by simpa [h1] using h
      simp [h1, digits_value_stop 0 cs hd, hz]
    · by_cases h2 : c.toNat = 43
      · have hd : starts_with_digit cs = false := by simpa [h2] using h
        simp [h1, h2, digits_value_stop 0 cs hd, hz]
      · have hd : isdigit c = false := by simpa [h1, h2] using h
        simp [h1, h2, digits_value, hd, hz]

theorem atoi_non_numeric (s : List Char) (h : numeric s = false) : atoi s = 0 := by
  unfold atoi
  rw [strtol_non_numeric s h]
  decide

theorem digit_char_spec (d : Nat) (h : d < 10) :
    isdigit (digit_char d) = true ∧ (digit_char d).toNat - 48 = d ∧
    isspace (digit_char d) = false ∧ (digit_char d).toNat ≠ 45 ∧
    (digit_char d).toNat ≠ 43 := by
  interval_cases d <;> decide

theorem digits_value_chars (rest : List Char) (hr : starts_with_digit rest = false) :
    ∀ (ds : List Nat) (acc : Nat), (∀ d ∈ ds, d < 10) →
      digits_value acc (ds.map digit_char ++ rest) = ds.foldl (fun a d => a * 10 + d) acc := by
  intro ds
  induction ds with
  | nil => intro acc _; exact digits_value_stop acc rest hr
  | cons d ds ih =>
    intro acc hd
    obtain ⟨h1, h2, -, -, -⟩ := digit_char_spec d (hd d (List.mem_cons_self _ _))
    simp only [List.map_cons, List.cons_append, digits_value, h1, if_true, h2, List.foldl_cons]
    exact ih _ (fun d' hd' => hd d' (List.mem_cons_of_mem _ hd'))

theorem skip_space_append (ws s : List Char) (hws : ∀ c ∈ ws, isspace c = true) :
    skip_space (ws ++ s) = skip_space s := by
  induction ws with
  | nil => rfl
  | cons c ws ih =>
    have hc : isspace c = true := hws c (List.mem_cons_self _ _)
    simp only [List.cons_append, skip_space, hc, if_true]
    exact ih (fun c' hc' => hws c' (List.mem_cons_of_mem _ hc'))

theorem atoi_skips_space (ws s : List Char) (hws : ∀ c ∈ ws, isspace c = true) :
    atoi (ws ++ s) = atoi s := by
  unfold atoi strtol
  rw [skip_space_append ws s hws]

theorem strtol_numeral (d : Nat) (ds : List Nat) (rest : List Char)
    (hd : ∀ x ∈ d :: ds, x < 10) (hr : starts_with_digit rest = false) :
    strtol ((d :: ds).map digit_char ++ rest) = saturate_long (decimal (d :: ds)) := by
  obtain ⟨-, -, h3, h4, h5⟩ := digit_char_spec d (hd d (List.mem_cons_self _ _))
  have hv := digits_value_chars rest hr (d :: ds) 0 hd
  simp only [List.map_cons, List.cons_append] at hv
  unfold strtol
  simp only [List.map_cons, List.cons_append, skip_space, h3, Bool.false_eq_true, if_false,
    h4, h5]
  change saturate_long (digits_value 0 (digit_char d :: (List.map digit_char ds ++ rest)) : Int)
    = _
  rw [hv]
  rfl

theorem strtol_plus_numeral (d : Nat) (ds : List Nat) (rest : List Char)
    (hd : ∀ x ∈ d :: ds, x < 10) (hr : starts_with_digit rest = false) :
    strtol (Char.ofNat 43 :: ((d :: ds).map digit_char ++ rest)) =
      saturate_long (decimal (d :: ds)) := by
  have hv := digits_value_chars rest hr (d :: ds) 0 hd
  have hsp : isspace (Char.ofNat 43) = false := by decide
  have h43 : (Char.ofNat 43).toNat = 43 := by decide
  have h45 : ¬ (Char.ofNat 43).toNat = 45 := by decide
  unfold strtol
  simp only [skip_space, hsp, Bool.false_eq_true, if_false, h43, h45, if_true]
  rw [hv]
  rfl

theorem strtol_negative_numeral (d : Nat) (ds : List Nat) (rest : List Char)
    (hd : ∀ x ∈ d :: ds, x < 10) (hr : starts_with_digit rest = false) :
    strtol (Char.ofNat 45 :: ((d :: ds).map digit_char ++ rest)) =
      saturate_long (-(decimal (d :: ds) : Int)) := by
  have hv := digits_value_chars rest hr (d :: ds) 0 hd
  have hsp : isspace (Char.ofNat 45) = false := by decide
  have h45 : (Char.ofNat 45).toNat = 45 := by decide
  unfold strtol
  simp only [skip_space, hsp, Bool.false_eq_true, if_false, h45, if_true]
  rw [hv]
  rfl

theorem atoi_numeral (d : Nat) (ds : List Nat) (rest : List Char)
    (hd : ∀ x ∈ d :: ds, x < 10) (hr : starts_with_digit rest = false)
    (hmax : (decimal (d :: ds) : Int) ≤ INT_MAX) :
    atoi ((d :: ds).map digit_char ++ rest) = decimal (d :: ds) := by
  simp only [INT_MAX] at hmax
  unfold atoi
  rw [strtol_numeral d ds rest hd hr,
    saturate_long_eq _ (by simp only [LONG_MIN]; omega) (by simp only [LONG_MAX]; omega)]
  exact wrap32_eq _ (by simp only [INT_MIN]; omega) (by simp only [INT_MAX]; omega)

theorem atoi_plus_numeral (d : Nat) (ds : List Nat) (rest : List Char)
    (hd : ∀ x ∈ d :: ds, x < 10) (hr : starts_with_digit rest = false)
    (hmax : (decimal (d :: ds) : Int) ≤ INT_MAX) :
    atoi (Char.ofNat 43 :: ((d :: ds).map digit_char ++ rest)) = decimal (d :: ds) := by
  simp only [INT_MAX] at hmax
  unfold atoi
  rw [strtol_plus_numeral d ds rest hd hr,
    saturate_long_eq _ (by simp only [LONG_MIN]; omega) (by simp only [LONG_MAX]; omega)]
  exact wrap32_eq _ (by simp only [INT_MIN]; omega) (by simp only [INT_MAX]; omega)

theorem atoi_negative_numeral (d : Nat) (ds : List Nat) (rest : List Char)
    (hd : ∀ x ∈ d :: ds, x < 10) (hr : starts_with_digit rest = false)
    (hmax : (decimal (d :: ds) : Int) ≤ 2147483648) :
    atoi (Char.ofNat 45 :: ((d :: ds).map digit_char ++ rest)) = -(decimal (d :: ds) : Int) := by
  unfold atoi
  rw [strtol_negative_numeral d ds rest hd hr,
    saturate_long_eq _ (by simp only [LONG_MIN]; omega) (by simp only [LONG_MAX]; omega)]
  exact wrap32_eq _ (by simp only [INT_MIN]; omega) (by simp only [INT_MAX]; omega)

theorem main_count_ge_one (c : Option Int) : 1 ≤ Client.main_count c := by
  unfold Client.main_count
  cases c with
  | none => decide
  | some rv =>
    simp only []
    split_ifs
    · omega
    · decide

/-- C11, as stated, fails for numerals beyond the range of `int`: `COUNT=2147483648` is
set, numeric, and writes a number greater than 0, yet the count stored is the default 5;
`COUNT=4294967299` stores 3 and `COUNT=5000000000` stores 705032704, neither of which is
the number the string writes. -/
theorem count_not_parsed_beyond_int :
    "2147483648".toList = [2, 1, 4, 7, 4, 8, 3, 6, 4, 8].map digit_char ∧
    decimal [2, 1, 4, 7, 4, 8, 3, 6, 4, 8] = 2147483648 ∧
    numeric "2147483648".toList = true ∧
    Client.count_of_env (some "2147483648".toList) = 5 ∧
    "4294967299".toList = [4, 2, 9, 4, 9, 6, 7, 2, 9, 9].map digit_char ∧
    decimal [4, 2, 9, 4, 9, 6, 7, 2, 9, 9] = 4294967299 ∧
    Client.count_of_env (some "4294967299".toList) = 3 ∧
    Client.count_of_env (some "5000000000".toList) = 705032704 := by
  decide

/-- C11, amended: in both `main` functions the exchange count is `main_count` of what
`atoi` returns for `COUNT`, so client and server given the same `COUNT` store the same
count.  When `COUNT` is a decimal numeral of a number from 1 to
2147483647 (white space and a plus sign may precede it, anything but a digit may follow)
the count is that number.  The count is the default 5 when `COUNT` is unset, when the
string is not numeric, when it writes zero, and when it is a negated numeral of a number
up to 2147483648.  For every other string the count is what `atoi` returns when that is
greater than 0 and 5 otherwise; `atoi` keeps the low 32 bits of the number read, cut off
at the range of `long`.  In every case the count is at least 1 and fits an `int`, so the
quotient `diff / g.count` the client prints is defined. -/
theorem count_from_environment (COUNT : Option (List Char)) (diff : Nat)
    (cenv : Client.MainEnv) (senv : Server.MainEnv) :
    (Client.main_g cenv).count = Client.main_count cenv.count_atoi ∧
    (Server.main_g senv).count = Client.main_count senv.count_atoi ∧
    (cenv.count_atoi = COUNT.map atoi →
      (Client.main_g cenv).count = Client.count_of_env COUNT) ∧
    (senv.count_atoi = COUNT.map atoi →
      (Server.main_g senv).count = Client.count_of_env COUNT) ∧
    (∀ rv : Int, 0 < rv → Client.main_count (some rv) = rv) ∧
    (∀ rv : Int, rv ≤ 0 → Client.main_count (some rv) = 5) ∧
    Client.main_count none = 5 ∧
    (∀ c : Option Int, 1 ≤ Client.main_count c) ∧
    Client.count_of_env none = 5 ∧
    (∀ s : List Char, 0 < atoi s → Client.count_of_env (some s) = atoi s) ∧
    (∀ s : List Char, atoi s ≤ 0 → Client.count_of_env (some s) = 5) ∧
    (∀ s : List Char, numeric s = false → Client.count_of_env (some s) = 5) ∧
    (∀ (d : Nat) (ds : List Nat) (rest : List Char), (∀ x ∈ d :: ds, x < 10) →
      starts_with_digit rest = false → 1 ≤ decimal (d :: ds) →
      (decimal (d :: ds) : Int) ≤ INT_MAX →
      Client.count_of_env (some ((d :: ds).map digit_char ++ rest)) = decimal (d :: ds)) ∧
    (∀ (d : Nat) (ds : List Nat) (rest : List Char), (∀ x ∈ d :: ds, x < 10) →
      starts_with_digit rest = false → 1 ≤ decimal (d :: ds) →
      (decimal (d :: ds) : Int) ≤ INT_MAX →
      Client.count_of_env (some (Char.ofNat 43 :: ((d :: ds).map digit_char ++ rest)))
        = decimal (d :: ds)) ∧
    (∀ (ws s : List Char), (∀ c ∈ ws, isspace c = true) →
      Client.count_of_env (some (ws ++ s)) = Client.count_of_env (some s)) ∧
    (∀ (d : Nat) (ds : List Nat) (rest : List Char), (∀ x ∈ d :: ds, x < 10) →
      starts_with_digit rest = false → decimal (d :: ds) = 0 →
      Client.count_of_env (some ((d :: ds).map digit_char ++ rest)) = 5) ∧
    (∀ (d : Nat) (ds : List Nat) (rest : List Char), (∀ x ∈ d :: ds, x < 10) →
      starts_with_digit rest = false → (decimal (d :: ds) : Int) ≤ 2147483648 →
      Client.count_of_env (some (Char.ofNat 45 :: ((d :: ds).map digit_char ++ rest))) = 5) ∧
    (∀ (d : Nat) (ds : List Nat) (rest : List Char), (∀ x ∈ d :: ds, x < 10) →
      starts_with_digit rest = false →
      atoi ((d :: ds).map digit_char ++ rest) =
        wrap32 (saturate_long (decimal (d :: ds))) ∧
      atoi (Char.ofNat 45 :: ((d :: ds).map digit_char ++ rest)) =
        wrap32 (saturate_long (-(decimal (d :: ds) : Int)))) ∧
    (1 ≤ Client.count_of_env COUNT ∧ Client.count_of_env COUNT ≤ INT_MAX) ∧
    Client.average_time_per_rpc diff (Client.count_of_env COUNT) =
      some (diff / (Client.count_of_env COUNT).toNat) ∧
    (Client.count_of_env (some "3".toList) = 3 ∧
      Client.count_of_env (some " +12abc".toList) = 12 ∧
      Client.count_of_env (some "2147483647".toList) = 2147483647 ∧
      Client.count_of_env (some "0".toList) = 5 ∧
      Client.count_of_env (some "-4".toList) = 5 ∧
      Client.count_of_env (some "abc".toList) = 5 ∧
      Client.count_of_env (some "".toList) = 5 ∧
      atoi "99999999999999999999".toList = -1 ∧
      atoi "-99999999999999999999".toList = 0) := by
  have hpos : ∀ rv : Int, 0 < rv → Client.main_count (some rv) = rv := by
    intro rv h
    simp [Client.main_count, h]
  have hneg : ∀ rv : Int, rv ≤ 0 → Client.main_count (some rv) = 5 := by
    intro rv h
    have : ¬ rv > 0 := by omega
    simp [Client.main_count, this, DEF_COUNT]
  have hrange : 1 ≤ Client.count_of_env COUNT ∧ Client.count_of_env COUNT ≤ INT_MAX := by
    refine ⟨main_count_ge_one _, ?_⟩
    unfold Client.count_of_env Client.main_count
    cases COUNT with
    | none => decide
    | some s =>
      simp only [Option.map_some']
      split_ifs
      · exact (atoi_range s).2
      · decide
  have hcount : ∀ s : List Char, Client.count_of_env (some s) = Client.main_count (some (atoi s)) :=
    fun _ => rfl
  have hclient : cenv.count_atoi = COUNT.map atoi →
      (Client.main_g cenv).count = Client.count_of_env COUNT := by
    intro h
    show Client.main_count cenv.count_atoi = _
    rw [h]
    rfl
  have hserver : senv.count_atoi = COUNT.map atoi →
      (Server.main_g senv).count = Client.count_of_env COUNT := by
    intro h
    show Client.main_count senv.count_atoi = _
    rw [h]
    rfl
  refine ⟨rfl, rfl, hclient, hserver, hpos, hneg, rfl, main_count_ge_one, rfl,
    fun s h => hpos _ h, fun s h => hneg _ h, fun s h => ?_, ?_, ?_, ?_, ?_, ?_, ?_, hrange,
    ?_, by decide⟩
  · exact hneg _ (by rw [atoi_non_numeric s h])
  · intro d ds rest hd hr h1 hmax
    rw [hcount, atoi_numeral d ds rest hd hr hmax]
    exact hpos _ (by omega)
  · intro d ds rest hd hr h1 hmax
    rw [hcount, atoi_plus_numeral d ds rest hd hr hmax]
    exact hpos _ (by omega)
  · intro ws s hws
    rw [hcount, hcount, atoi_skips_space ws s hws]
  · intro d ds rest hd hr h0
    rw [hcount, atoi_numeral d ds rest hd hr (by rw [h0]; decide), h0]
    rfl
  · intro d ds rest hd hr hmax
    rw [hcount, atoi_negative_numeral d ds rest hd hr hmax]
    exact hneg _ (by omega)
  · intro d ds rest hd hr
    unfold atoi
    rw [strtol_numeral d ds rest hd hr, strtol_negative_numeral d ds rest hd hr]
    exact ⟨rfl, rfl⟩
  · obtain ⟨h1, h2⟩ := hrange
    simp only [INT_MAX] at h2
    unfold Client.average_time_per_rpc
    have hm : Client.count_of_env COUNT % 18446744073709551616 = Client.count_of_env COUNT := by
      omega
    rw [hm]
    have hz : ¬ (Client.count_of_env COUNT).toNat = 0 := by omega
    rw [if_neg hz]

theorem drain_first_nil : drain_first [] := by
  simp [drain_first]

theorem drain_first_trigger (l : List Bool) (h : drain_first l) : drain_first (l ++ [false]) := by
  obtain ⟨h1, h2⟩ := h
  refine ⟨?_, ?_⟩
  · cases l with
    | nil => simp
    | cons a l => simpa using h1
  · rw [List.chain'_append]
    refine ⟨h2, List.chain'_singleton _, ?_⟩
    intro x _ y hy
    simp only [List.head?_cons, Option.mem_def, Option.some.injEq] at hy
    subst hy
    simp

theorem drain_first_progress (l : List Bool) (h : drain_first l)
    (hl : l.getLast? = some false) : drain_first (l ++ [true]) := by
  obtain ⟨h1, h2⟩ := h
  refine ⟨?_, ?_⟩
  · cases l with
    | nil => simp at hl
    | cons a l => simpa using h1
  · rw [List.chain'_append]
    refine ⟨h2, List.chain'_singleton _, ?_⟩
    intro x hx y _
    rw [hl] at hx
    simp only [Option.mem_def, Option.some.injEq] at hx
    subst hx
    simp

namespace Server

theorem rpchandler_calls (s : State) (h : HandlerCall) : (rpchandler s h).calls = s.calls := by
  unfold rpchandler
  cases h.np <;> simp only [] <;> split_ifs <;> rfl

theorem deliver_calls (s : State) (cb : Option Callback) : (deliver s cb).calls = s.calls := by
  cases cb with
  | none => rfl
  | some c =>
    cases c with
    | request h => exact rpchandler_calls s h
    | respond cbi =>
      simp only [deliver, reply_sent_cb]
      split_ifs <;> rfl

theorem log_inv_step (cfg : g) (s : State) (o : Trigger) (h : LogInv cfg s) :
    LogInv cfg (run_network_step cfg s o) := by
  obtain ⟨h1, h2, h3, h4⟩ := h
  have hc := deliver_calls { s with calls := s.calls ++ [Call.trigger 0 1] } o.cb
  have hn := deliver_net_done { s with calls := s.calls ++ [Call.trigger 0 1] } o.cb
  simp only [] at hc hn
  unfold run_network_step
  simp only []
  generalize deliver { s with calls := s.calls ++ [Call.trigger 0 1] } o.cb = s1 at hc hn
  have hd1 : drain_first (s1.calls.map Call.isProgress) := by
    rw [hc]
    simpa [Call.isProgress] using drain_first_trigger _ h1
  have hm1 : ∀ c ∈ s1.calls, c = Call.trigger 0 1 ∨ c = Call.progress 100 := by
    intro c hcm
    rw [hc, List.mem_append] at hcm
    rcases hcm with hcm | hcm
    · exact h2 c hcm
    · left; simpa using hcm
  have hl1 : (s1.calls.map Call.isProgress).getLast? = some false := by
    rw [hc]
    simp [Call.isProgress]
  have hl1' : ¬ (s1.calls.map Call.isProgress).getLast? = some true := by
    rw [hl1]; simp
  split_ifs with hstop hx hcont hlt
  · exact ⟨h1, h2, h3, h4⟩
  all_goals
    have hnd : s.net_done = false := by
      simp only [not_or, Bool.not_eq_true] at hstop
      exact hstop.2
  · exact ⟨hd1, hm1, fun hh => absurd hh hl1',
      fun hh => by rw [hn, hnd] at hh; exact absurd hh (by decide)⟩
  · exact ⟨hd1, hm1, fun hh => absurd hh hl1',
      fun hh => by rw [hn, hnd] at hh; exact absurd hh (by decide)⟩
  · refine ⟨?_, ?_, fun _ => ⟨hlt, by rw [hn, hnd]⟩,
      fun hh => by rw [hn, hnd] at hh; exact absurd hh (by decide)⟩
    · simp only [List.map_append, List.map_cons, List.map_nil, Call.isProgress]
      exact drain_first_progress _ hd1 hl1
    · intro c hcm
      simp only [List.mem_append, List.mem_singleton] at hcm
      rcases hcm with hcm | hcm
      · exact hm1 c hcm
      · right; exact hcm
  · exact ⟨hd1, hm1, fun hh => absurd hh hl1', fun _ => by dsimp only; omega⟩

theorem log_inv_run (cfg : g) (n : Int) (tr : List Trigger) :
    LogInv cfg (run_network cfg (State.zero n) tr) := by
  unfold run_network
  have h0 : LogInv cfg (run_network_start cfg (State.zero n)) := by
    unfold run_network_start
    split_ifs with hp
    · exact ⟨drain_first_nil, by simp [State.zero], by simp [State.zero],
        by simp [State.zero]⟩
    · exact ⟨drain_first_nil, by simp [State.zero], by simp [State.zero],
        fun _ => by simp only []; omega⟩
  generalize run_network_start cfg (State.zero n) = s at h0
  induction tr generalizing s with
  | nil => exact h0
  | cons o tr ih => exact ih _ (log_inv_step cfg s o h0)

theorem network_cycle (cfg : g) (s : State) (o : Trigger) (hx : s.exit = none)
    (hnd : s.net_done = false) :
    ((run_network_step cfg s o).calls = s.calls ++ [Call.trigger 0 1] ∨
      (run_network_step cfg s o).calls = s.calls ++ [Call.trigger 0 1, Call.progress 100]) ∧
    ((run_network_step cfg s o).calls = s.calls ++ [Call.trigger 0 1, Call.progress 100] ↔
      ((run_network_step cfg s o).exit = none ∧ ¬ (o.ret = HG_SUCCESS ∧ o.actual ≠ 0) ∧
        (run_network_step cfg s o).got < cfg.count)) ∧
    ((run_network_step cfg s o).net_done = true ↔
      ((run_network_step cfg s o).exit = none ∧ ¬ (o.ret = HG_SUCCESS ∧ o.actual ≠ 0) ∧
        cfg.count ≤ (run_network_step cfg s o).got)) := by
  have hc := deliver_calls { s with calls := s.calls ++ [Call.trigger 0 1] } o.cb
  have hn := deliver_net_done { s with calls := s.calls ++ [Call.trigger 0 1] } o.cb
  simp only [] at hc hn
  unfold run_network_step
  simp only []
  generalize deliver { s with calls := s.calls ++ [Call.trigger 0 1] } o.cb = s1 at hc hn
  have hstop : ¬ (s.exit.isSome = true ∨ s.net_done = true) := by simp [hx, hnd]
  rw [if_neg hstop]
  have hne : s.calls ++ [Call.trigger 0 1] ≠ s.calls ++ [Call.trigger 0 1, Call.progress 100] := by
    intro h
    have := congrArg List.length h
    simp at this
  have hn1 : s1.net_done = false := by rw [hn, hnd]
  split_ifs with h1 h2 h3
  · have hx1 : s1.exit ≠ none := by
      intro h; rw [h] at h1; simp at h1
    refine ⟨Or.inl hc, ⟨fun h => absurd (hc.symm.trans h) hne, fun h => absurd h.1 hx1⟩,
      ⟨fun h => by rw [hn1] at h; exact absurd h (by decide), fun h => absurd h.1 hx1⟩⟩
  · refine ⟨Or.inl hc, ⟨fun h => absurd (hc.symm.trans h) hne, fun h => absurd h2 h.2.1⟩,
      ⟨fun h => by rw [hn1] at h; exact absurd h (by decide), fun h => absurd h2 h.2.1⟩⟩
  · have hx1 : s1.exit = none := by simpa using h1
    refine ⟨Or.inr (by simp [hc]), ⟨fun _ => ⟨hx1, h2, h3⟩, fun _ => by simp [hc]⟩,
      ⟨fun h => by rw [hn1] at h; exact absurd h (by decide), fun h => ?_⟩⟩
    have := h.2.2
    dsimp only at this
    omega
  · have hx1 : s1.exit = none := by simpa using h1
    refine ⟨Or.inl hc, ⟨fun h => absurd (hc.symm.trans h) hne, fun h => absurd h.2.2 h3⟩,
      ⟨fun _ => ⟨hx1, h2, by dsimp only; omega⟩, fun _ => rfl⟩⟩

end Server

namespace Client

theorem run_instance_step_sends_done (cfg : g) (s : State) (e : CtlEnv)
    (h : s.sends_done ≠ 0) : (run_instance_step cfg s e).sends_done ≠ 0 := by
  unfold run_instance_step
  split <;> (try split_ifs) <;> simp [State.errx, h]

theorem net_inv_step (cfg : g) (y : Sys) (ev : SysEvent) (h : NetInv y) :
    NetInv (sys_step cfg y ev) := by
  obtain ⟨h1, h2, h3, h4⟩ := h
  unfold sys_step
  split_ifs with hx
  · exact ⟨h1, h2, h3, h4⟩
  · cases ev with
    | ctl e =>
      exact ⟨h1, h2, h3, fun hc => run_instance_step_sends_done cfg _ e (h4 hc)⟩
    | net o =>
      simp only []
      unfold run_network_step
      split
      next hpc =>
        split_ifs with hs
        · exact ⟨h1, h2, fun hh => by simp at hh, fun _ => hs⟩
        · exact ⟨h1, h2, fun hh => by simp at hh, fun hh => by simp at hh⟩
      next hpc =>
        refine ⟨?_, ?_, ?_, ?_⟩
        · simpa [NetCall.isProgress] using drain_first_trigger _ h1
        · intro c hcm
          simp only [List.mem_append, List.mem_singleton] at hcm
          rcases hcm with hcm | hcm
          · exact h2 c hcm
          · exact Or.inl ⟨_, hcm⟩
        · intro _
          simp [NetCall.isProgress]
        · intro hh
          simp only [] at hh
          split_ifs at hh
      next hpc =>
        split_ifs with hs
        · exact ⟨h1, h2, fun hh => by simp at hh, fun hh => by simp at hh⟩
        · exact ⟨h1, h2, fun _ => h3 (Or.inl hpc), fun hh => by simp at hh⟩
      next hpc =>
        refine ⟨?_, ?_, fun hh => by simp at hh, fun hh => by simp at hh⟩
        · simp only [List.map_append, List.map_cons, List.map_nil, NetCall.isProgress]
          exact drain_first_progress _ h1 (h3 (Or.inr hpc))
        · intro c hcm
          simp only [List.mem_append, List.mem_singleton] at hcm
          rcases hcm with hcm | hcm
          · exact h2 c hcm
          · exact Or.inr ⟨_, hcm⟩
      next hpc => exact ⟨h1, h2, h3, h4⟩

theorem net_inv_run (cfg : g) (n : Int) (e : InitEnv) (evs : List SysEvent) :
    NetInv (sys_run cfg (sys_start n e) evs) := by
  unfold sys_run
  have h0 : NetInv (sys_start n e) :=
    ⟨drain_first_nil, by simp [sys_start], by simp [sys_start], by simp [sys_start]⟩
  generalize sys_start n e = y at h0
  induction evs generalizing y with
  | nil => exact h0
  | cons ev evs ih => exact ih _ (net_inv_step cfg y ev h0)

theorem client_network_cycle (cfg : g) (y : Sys) (o : NetTrigger) :
    (y.net = NetPc.loop_test →
      (run_network_step cfg y o).calls = y.calls ∧
      (run_network_step cfg y o).inst = y.inst ∧
      (run_network_step cfg y o).net =
        if y.inst.sends_done ≠ 0 then NetPc.complete else NetPc.trigger) ∧
    (y.net = NetPc.trigger →
      (run_network_step cfg y o).calls = y.calls ++ [NetCall.trigger 0 1 y.inst.sends_done] ∧
      (run_network_step cfg y o).inst = net_deliver cfg y.inst o.cb ∧
      (run_network_step cfg y o).net =
        if o.ret = HG_SUCCESS ∧ o.actual ≠ 0 then NetPc.trigger else NetPc.recheck) ∧
    (y.net = NetPc.recheck →
      (run_network_step cfg y o).calls = y.calls ∧
      (run_network_step cfg y o).inst = y.inst ∧
      (run_network_step cfg y o).net =
        if y.inst.sends_done ≠ 0 then NetPc.loop_test else NetPc.progress) ∧
    (y.net = NetPc.progress →
      (run_network_step cfg y o).calls = y.calls ++ [NetCall.progress 100 y.inst.sends_done] ∧
      (run_network_step cfg y o).inst = y.inst ∧
      (run_network_step cfg y o).net = NetPc.loop_test) ∧
    (y.net = NetPc.complete → run_network_step cfg y o = y) := by
  refine ⟨fun h => ?_, fun h => ?_, fun h => ?_, fun h => ?_, fun h => ?_⟩
  · simp only [run_network_step, h]
    split_ifs <;> exact ⟨rfl, rfl, rfl⟩
  · simp [run_network_step, h]
  · simp only [run_network_step, h]
    split_ifs <;> exact ⟨rfl, rfl, rfl⟩
  · simp [run_network_step, h]
  · simp only [run_network_step, h]

theorem progress_entered (cfg : g) (y : Sys) (ev : SysEvent)
    (h : (sys_step cfg y ev).net = NetPc.progress) :
    y.net = NetPc.progress ∨ (y.net = NetPc.recheck ∧ y.inst.sends_done = 0) := by
  unfold sys_step at h
  split_ifs at h with hx
  · exact Or.inl h
  · cases ev with
    | ctl e => exact Or.inl h
    | net o =>
      simp only [] at h
      unfold run_network_step at h
      split at h
      next hpc => split_ifs at h
      next hpc => simp only [] at h; split_ifs at h
      next hpc =>
        split_ifs at h with hs
        exact Or.inr ⟨hpc, by simpa using hs⟩
      next hpc => simp at h
      next hpc => exact Or.inl h

end Client

/-- C12, as stated, fails for the client: with one exchange, the network thread tests
`sends_done` after the drain and finds it clear, the controlling thread then passes its
final wait and sets `sends_done`, and the network thread calls `HG_Progress(ctx, 100)`
in a state where the stop condition holds. -/
theorem progress_called_with_flag_set :
    (Client.sys_run Client.cfg_one_call (Client.sys_start 0 Client.okInit)
      (Client.sched_late_flag.take 8)).inst.sends_done = 0 ∧
    (Client.sys_run Client.cfg_one_call (Client.sys_start 0 Client.okInit)
      (Client.sched_late_flag.take 8)).net = Client.NetPc.progress ∧
    (Client.sys_run Client.cfg_one_call (Client.sys_start 0 Client.okInit)
      (Client.sched_late_flag.take 9)).inst.sends_done = 1 ∧
    (Client.sys_run Client.cfg_one_call (Client.sys_start 0 Client.okInit)
      (Client.sched_late_flag.take 10)).calls =
      (Client.sys_run Client.cfg_one_call (Client.sys_start 0 Client.okInit)
        (Client.sched_late_flag.take 9)).calls ++ [Client.NetCall.progress 100 1] ∧
    (Client.sys_run Client.cfg_one_call (Client.sys_start 0 Client.okInit)
      Client.sched_late_flag).net = Client.NetPc.complete := by
  decide

/-- C12, amended.  Server, for every sequence of trigger calls: in the record of calls
every cycle drains first (the record starts with a trigger call and no progress call
follows another), the calls are `HG_Trigger(ctx, 0, 1, &actual)` and
`HG_Progress(ctx, 100)`, a progress call is the last call only while `got` is below the
count, and the loop is left only with `got` at or above the count; in one pass the
trigger call comes first, progress is called exactly when the drain ended (no completion
delivered or an error status) and `got` is below the count, and the loop is left exactly
when the drain ended and `got` is at or above the count.  Client, for every schedule of
both threads: the record of calls has the same shape, the thread leaves the loop only
with `sends_done` set, each step does what its place in the loop says, and the thread
gets to the progress call only through the test after the drain finding `sends_done`
clear; `sends_done` may be set between that test and the call. -/
theorem network_loop_cycle (scfg : Server.g) (n : Int) (tr : List Server.Trigger)
    (s : Server.State) (o : Server.Trigger) (ccfg : Client.g) (e : Client.InitEnv)
    (evs : List Client.SysEvent) (y : Client.Sys) (ev : Client.SysEvent)
    (co : Client.NetTrigger) :
    drain_first ((Server.run_network scfg (Server.State.zero n) tr).calls.map
      Server.Call.isProgress) ∧
    (∀ c ∈ (Server.run_network scfg (Server.State.zero n) tr).calls,
      c = Server.Call.trigger 0 1 ∨ c = Server.Call.progress 100) ∧
    (((Server.run_network scfg (Server.State.zero n) tr).calls.map
        Server.Call.isProgress).getLast? = some true →
      (Server.run_network scfg (Server.State.zero n) tr).got < scfg.count ∧
      (Server.run_network scfg (Server.State.zero n) tr).net_done = false) ∧
    ((Server.run_network scfg (Server.State.zero n) tr).net_done = true →
      scfg.count ≤ (Server.run_network scfg (Server.State.zero n) tr).got) ∧
    (s.exit = none → s.net_done = false →
      ((Server.run_network_step scfg s o).calls = s.calls ++ [Server.Call.trigger 0 1] ∨
        (Server.run_network_step scfg s o).calls =
          s.calls ++ [Server.Call.trigger 0 1, Server.Call.progress 100]) ∧
      ((Server.run_network_step scfg s o).calls =
          s.calls ++ [Server.Call.trigger 0 1, Server.Call.progress 100] ↔
        ((Server.run_network_step scfg s o).exit = none ∧
          ¬ (o.ret = hg_return_t.HG_SUCCESS ∧ o.actual ≠ 0) ∧
          (Server.run_network_step scfg s o).got < scfg.count)) ∧
      ((Server.run_network_step scfg s o).net_done = true ↔
        ((Server.run_network_step scfg s o).exit = none ∧
          ¬ (o.ret = hg_return_t.HG_SUCCESS ∧ o.actual ≠ 0) ∧
          scfg.count ≤ (Server.run_network_step scfg s o).got))) ∧
    (s.net_done = true → Server.run_network_step scfg s o = s) ∧
    ((Server.run_network_start scfg s).net_done = true ↔
      (s.net_done = true ∨ scfg.count ≤ 0)) ∧
    drain_first ((Client.sys_run ccfg (Client.sys_start n e) evs).calls.map
      Client.NetCall.isProgress) ∧
    (∀ c ∈ (Client.sys_run ccfg (Client.sys_start n e) evs).calls,
      (∃ f, c = Client.NetCall.trigger 0 1 f) ∨ (∃ f, c = Client.NetCall.progress 100 f)) ∧
    ((Client.sys_run ccfg (Client.sys_start n e) evs).net = Client.NetPc.complete →
      (Client.sys_run ccfg (Client.sys_start n e) evs).inst.sends_done ≠ 0) ∧
    (y.net = Client.NetPc.loop_test →
      (Client.run_network_step ccfg y co).calls = y.calls ∧
      (Client.run_network_step ccfg y co).inst = y.inst ∧
      (Client.run_network_step ccfg y co).net =
        if y.inst.sends_done ≠ 0 then Client.NetPc.complete else Client.NetPc.trigger) ∧
    (y.net = Client.NetPc.trigger →
      (Client.run_network_step ccfg y co).calls =
        y.calls ++ [Client.NetCall.trigger 0 1 y.inst.sends_done] ∧
      (Client.run_network_step ccfg y co).inst = Client.net_deliver ccfg y.inst co.cb ∧
      (Client.run_network_step ccfg y co).net =
        if co.ret = hg_return_t.HG_SUCCESS ∧ co.actual ≠ 0 then Client.NetPc.trigger
        else Client.NetPc.recheck) ∧
    (y.net = Client.NetPc.recheck →
      (Client.run_network_step ccfg y co).calls = y.calls ∧
      (Client.run_network_step ccfg y co).inst = y.inst ∧
      (Client.run_network_step ccfg y co).net =
        if y.inst.sends_done ≠ 0 then Client.NetPc.loop_test else Client.NetPc.progress) ∧
    (y.net = Client.NetPc.progress →
      (Client.run_network_step ccfg y co).calls =
        y.calls ++ [Client.NetCall.progress 100 y.inst.sends_done] ∧
      (Client.run_network_step ccfg y co).inst = y.inst ∧
      (Client.run_network_step ccfg y co).net = Client.NetPc.loop_test) ∧
    (y.net = Client.NetPc.complete → Client.run_network_step ccfg y co = y) ∧
    ((Client.sys_step ccfg y ev).net = Client.NetPc.progress →
      y.net = Client.NetPc.progress ∨
      (y.net = Client.NetPc.recheck ∧ y.inst.sends_done = 0)) := by
  obtain ⟨a1, a2, a3, a4⟩ := Server.log_inv_run scfg n tr
  obtain ⟨b1, b2, -, b4⟩ := Client.net_inv_run ccfg n e evs
  obtain ⟨c1, c2, c3, c4, c5⟩ := Client.client_network_cycle ccfg y co
  refine ⟨a1, a2, a3, a4, Server.network_cycle scfg s o, ?_, ?_, b1, b2, b4, c1, c2, c3, c4,
    c5, Client.progress_entered ccfg y ev⟩
  · intro h
    simp [Server.run_network_step, h]
  · unfold Server.run_network_start
    split_ifs with hp
    · simp only []
      constructor
      · intro h; exact Or.inl h
      · intro h
        rcases h with h | h
        · exact h
        · omega
    · simp only [true_iff]
      right
      omega

end SndRcv
